import Mathlib

/-!
# cf-space-services: the `ss` command of the space-services plugin

A shallow embedding of `space_services.go` and the properties of its
listing walk, name resolution, record building, sorting and printing.

Go strings decoded from JSON are valid UTF-8, so they are embedded as Lean
`String`s: `len(s)` is `String.utf8ByteSize`, the width `fmt` pads to counts
characters (`String.length`), and Go's bytewise `<` on valid UTF-8 agrees
with the code-point order of Lean's `<`.  A Go pointer field (`*string`,
`*CFResourceEntity`) is an `Option`, `nil` being `none`.  A Go `error` is
its message.
-/

namespace SpaceServices

/-! ## Data model (lines 224-282 of the source) -/

/-- CFResourceMetadata: Cloud Foundry response resource metadata. -/
structure CFResourceMetadata where
  CreatedAt : String
  GUID : String
  UpdatedAt : String
  URL : String
deriving DecidableEq, Repr

/-- CFResourceEntity: Cloud Foundry response resource entity. -/
structure CFResourceEntity where
  Name : Option String
  Label : Option String
  ServiceGUID : Option String
  ServicePlanGUID : Option String
deriving DecidableEq, Repr

/-- CFResource: Cloud Foundry response resource. -/
structure CFResource where
  Metadata : Option CFResourceMetadata
  Entity : Option CFResourceEntity
deriving DecidableEq, Repr

/-- CFResponse: Cloud Foundry response. -/
structure CFResponse where
  TotalResults : Int
  TotalPages : Int
  PrevURL : Option String
  NextURL : Option String
  Resources : List CFResource
deriving DecidableEq, Repr

/-- ServiceInstance: one row of the table. -/
structure ServiceInstance where
  Name : String
  Service : String
  Plan : String
deriving DecidableEq, Repr

/-- ServiceInstances: a slice of service instances. -/
abbrev ServiceInstances := List ServiceInstance

/-- The source's `max`: `if arg1 > arg0 { return arg1 }; return arg0`. -/
def max (arg0 arg1 : Nat) : Nat :=
  if arg1 > arg0 then arg1 else arg0

/-- Go's `len` of a string: its length in bytes. -/
def len (s : String) : Nat := s.utf8ByteSize

/-! ## getName (lines 299-342) -/

/-- What `client.Do` hands back when the request went through: the status
code, the status line and the outcome of reading the body. -/
structure Response where
  StatusCode : Int
  Status : String
  Body : Except String String

/-- The collaborators of `getName`: building the request, performing it
with the Authorization header, and decoding a body into a `CFResource`. -/
structure Transport where
  newRequest : String → Except String Unit
  doRequest : String → String → Except String Response
  unmarshal : String → Except String CFResource

/-- The function `getName`: the pair (result, err) it returns; `none` is a
nil error. -/
def getName (t : Transport) (accessToken url : String) : String × Option String :=
  let result := ""
  match t.newRequest url with
  | .error err => (result, some err)
  | .ok _ =>
    match t.doRequest accessToken url with
    | .error err => (result, some err)
    | .ok response =>
      if response.StatusCode ≠ 200 then
        (result, some ("Response returned error " ++ response.Status))
      else
        match response.Body with
        | .error err => (result, some err)
        | .ok body =>
          match t.unmarshal body with
          | .error err => (result, some err)
          | .ok cfResponse =>
            match cfResponse.Entity with
            | none => (result, some "Entity not found")
            | some entity =>
              match entity.Label with
              | some label => (label, none)
              | none =>
                match entity.Name with
                | some name => (name, none)
                | none => ("", none)

/-! ## Ordering of the rows (lines 284-290) -/

/-- ServiceInstances.Len. -/
def ServiceInstances.Len (a : ServiceInstances) : Nat := a.length

/-- Lexicographic comparison of two character sequences: the first
position where they differ decides, and a proper initial segment comes
first. -/
def lexLess : List Char → List Char → Bool
  | [], [] => false
  | [], _ :: _ => true
  | _ :: _, [] => false
  | a :: as, b :: bs =>
    if a < b then true else if b < a then false else lexLess as bs

/-- Go's `<` on two strings. -/
def stringLess (s t : String) : Bool :=
  lexLess s.data t.data

/-- ServiceInstances.Less: by service, then plan, then name. -/
def ServiceInstances.Less (a : ServiceInstances) (i j : Fin a.length) : Bool :=
  stringLess (a.get i).Service (a.get j).Service ||
  (decide ((a.get i).Service = (a.get j).Service) && stringLess (a.get i).Plan (a.get j).Plan) ||
  (decide ((a.get i).Service = (a.get j).Service) && decide ((a.get i).Plan = (a.get j).Plan)
    && stringLess (a.get i).Name (a.get j).Name)

/-- The comparison `Less` makes between two records: `Less` on the
two-element slice holding them. -/
def precedes (x y : ServiceInstance) : Bool :=
  ServiceInstances.Less [x, y] ⟨0, Nat.zero_lt_succ _⟩ ⟨1, Nat.succ_lt_succ (Nat.zero_lt_succ _)⟩

/-- The inner loop of an insertion sort, `for j := i; j > a && Less(j, j-1);
j-- { Swap(j, j-1) }`, on the already sorted part listed from position
`i-1` down to `a`: the new element moves past every element it is `Less`
than and stops at the first it is not. -/
def sink (x : ServiceInstance) : List ServiceInstance → List ServiceInstance
  | [] => [x]
  | y :: ys => if precedes x y then y :: sink x ys else x :: y :: ys

/-- Modelled on the library contract of `sort.Sort` (the standard library,
not part of this repository), driven by `Less`: the insertion sort the
library uses on short slices.  `sortSort_unique` shows that every
rearrangement into `Less` order gives this same list. -/
def sortSort (a : ServiceInstances) : ServiceInstances :=
  (a.foldl (fun done x => sink x done) []).reverse

/-! ## Run, from the decoded listing on (lines 98-195) -/

/-- A Go `map[string]string`: the value stored under each key, if any. -/
def NamesMap := String → Option String

/-- The empty map of `make(map[string]string)`. -/
def NamesMap.empty : NamesMap := fun _ => none

/-- The assignment `m[k] = v`. -/
def NamesMap.set (m : NamesMap) (k v : String) : NamesMap :=
  fun q => if q = k then some v else m q

/-- The index expression `m[k]`: the zero value `""` for a missing key. -/
def NamesMap.index (m : NamesMap) (k : String) : String :=
  match m k with
  | some v => v
  | none => ""

/-- The `ok` of `_, ok := m[k]`. -/
def NamesMap.has (m : NamesMap) (k : String) : Bool :=
  (m k).isSome

/-- Which of the two goroutine bodies a dispatched lookup runs. -/
inductive LookupKind where
  | service
  | plan
deriving DecidableEq, Repr

/-- A dispatched goroutine: its kind and the GUID passed to it. -/
structure Task where
  kind : LookupKind
  guid : String
deriving DecidableEq, Repr

/-- The variables of Run shared by the walk, the goroutines and the
printing, together with the goroutines dispatched so far, oldest first. -/
structure Vars where
  maxNameLength : Nat
  maxServiceLength : Nat
  maxServicePlanLength : Nat
  serviceNamesMap : NamesMap
  servicePlanNamesMap : NamesMap
  readyCount : Int
  tasks : List Task

/-- The state at line 106, before the walk. -/
def Vars.init : Vars :=
  { maxNameLength := 0, maxServiceLength := 0, maxServicePlanLength := 0,
    serviceNamesMap := NamesMap.empty, servicePlanNamesMap := NamesMap.empty,
    readyCount := 0, tasks := [] }

/-- Lines 112-134: the service GUID of an entry.  A GUID not yet in the
map gets the placeholder `""`, `readyCount` is decremented and a goroutine
is dispatched for it. -/
def visitService (st : Vars) (guid : Option String) : Vars :=
  match guid with
  | some g =>
    if st.serviceNamesMap.has g then st
    else { st with serviceNamesMap := st.serviceNamesMap.set g "",
                   readyCount := st.readyCount - 1,
                   tasks := st.tasks ++ [⟨LookupKind.service, g⟩] }
  | none => st

/-- Lines 136-158: the plan GUID of an entry, handled likewise. -/
def visitPlan (st : Vars) (guid : Option String) : Vars :=
  match guid with
  | some g =>
    if st.servicePlanNamesMap.has g then st
    else { st with servicePlanNamesMap := st.servicePlanNamesMap.set g "",
                   readyCount := st.readyCount - 1,
                   tasks := st.tasks ++ [⟨LookupKind.plan, g⟩] }
  | none => st

/-- One iteration of the loop of lines 107-160.  `none` is the run-time
panic of dereferencing a nil `resource.Entity.Name` at line 109. -/
def visit (st : Vars) (resource : CFResource) : Option Vars :=
  match resource.Entity with
  | none => some st
  | some entity =>
    match entity.Name with
    | none => none
    | some name =>
      let st1 := { st with maxNameLength := max (len name) st.maxNameLength }
      let st2 := visitService st1 entity.ServiceGUID
      some (visitPlan st2 entity.ServicePlanGUID)

/-- The walk of lines 107-160 over the whole listing. -/
def collect : Vars → List CFResource → Option Vars
  | st, [] => some st
  | st, resource :: rest =>
    match visit st resource with
    | none => none
    | some st1 => collect st1 rest

/-- The lookup a goroutine performs: lines 118 and 142. -/
def lookup (t : Transport) (accessToken apiEndpoint : String) (task : Task) : String × Option String :=
  match task.kind with
  | LookupKind.service => getName t accessToken (apiEndpoint ++ "/v2/services/" ++ task.guid)
  | LookupKind.plan => getName t accessToken (apiEndpoint ++ "/v2/service_plans/" ++ task.guid)


/-- Lines 168-177: the records built from the listing and the two maps. -/
def build (st : Vars) : ServiceInstances → List CFResource → ServiceInstances
  | serviceInstances, [] => serviceInstances
  | serviceInstances, resource :: rest =>
    match resource.Entity with
    | some entity =>
      match entity.Name, entity.ServiceGUID, entity.ServicePlanGUID with
      | some name, some sg, some pg =>
        build st (serviceInstances ++ [{ Name := name,
                                         Service := st.serviceNamesMap.index sg,
                                         Plan := st.servicePlanNamesMap.index pg }]) rest
      | _, _, _ => build st serviceInstances rest
    | none => build st serviceInstances rest


/-- The constant `cellSpacing` of line 181. -/
def cellSpacing : Nat := 3

/-- A run of `n` blanks. -/
def spaces (n : Nat) : String :=
  String.mk (List.replicate n (Char.ofNat 32))

/-- The call `fmt.Sprintf("%-" + strconv.Itoa(width) + "v", v)` for a string
`v` and a width that `fmt` accepts in a format string (it refuses widths
above a million): `v` followed by blanks up to `width` characters, never
truncated. -/
def sprintfPadded (width : Nat) (v : String) : String :=
  v ++ spaces (width - v.length)

/-- The colour codes used by Run. -/
def green : Nat := 32
/-- The colour code of the header. -/
def white : Nat := 38

/-- The function `colorize`. -/
def colorize (message : String) (color : Nat) (bold : Int) : String :=
  "\x1b[" ++ toString bold ++ ";" ++ toString color ++ "m" ++ message ++ "\x1b[0m"

/-- The three padded fields of the header line (lines 187-189), before
they are coloured, for the widths of `paddingName`, `paddingService` and
`paddingPlan`. -/
def headerFields (paddingName paddingService paddingPlan : Nat) : List String :=
  [sprintfPadded paddingName "name",
   sprintfPadded paddingService "service",
   sprintfPadded paddingPlan "plan"]

/-- The three padded fields of a row line (lines 192-194). -/
def rowFields (paddingName paddingService paddingPlan : Nat) (row : ServiceInstance) :
    List String :=
  [sprintfPadded paddingName row.Name,
   sprintfPadded paddingService row.Service,
   sprintfPadded paddingPlan row.Plan]

/-- What the `Printf` of line 185 writes. -/
def okText : String :=
  colorize "OK" green 1 ++ "\n\n"

/-- What the `Printf` of lines 186-189 writes. -/
def headerText (paddingName paddingService paddingPlan : Nat) : String :=
  String.join ((headerFields paddingName paddingService paddingPlan).map
    (fun f => colorize f white 1)) ++ "\n"

/-- What the `Printf` of lines 191-194 writes for one row. -/
def rowText (paddingName paddingService paddingPlan : Nat) (row : ServiceInstance) : String :=
  String.join (rowFields paddingName paddingService paddingPlan row) ++ "\n"

/-- What a goroutine prints when its lookup fails (lines 121 and 145). -/
def failureText (kind : LookupKind) (err : String) : String :=
  match kind with
  | LookupKind.service => "Failed to get service metadata: " ++ err
  | LookupKind.plan => "Failed to get service plan metadata: " ++ err

/-- The service lookups dispatched, in dispatch order. -/
def dispatchedServices (st : Vars) : List String :=
  st.tasks.filterMap (fun task => if task.kind = LookupKind.service then some task.guid else none)

/-- The plan lookups dispatched, in dispatch order. -/
def dispatchedPlans (st : Vars) : List String :=
  st.tasks.filterMap (fun task => if task.kind = LookupKind.plan then some task.guid else none)

/-! ## Run as interleaved steps of the walk and the goroutines

The goroutines of lines 116-130 and 140-154 run concurrently with the
routine that dispatched them.  Each step below is one action of one of
them on the shared variables; a schedule is the order in which they act.
The steps of the coordinating routine are whole statements or loop
iterations; those of a goroutine separate its map write, the load and the
store of its unsynchronised update of the maximum, its send on the channel
and the load and the store of its unsynchronised `readyCount++`.  Nothing
orders the accesses of the goroutines to the two maps against those of the
coordinating routine or against each other; the Go runtime may end the
program with a fatal error when two of them meet on one map, which is the
step of the actor `runtime`.  A run need not come to an end: the
coordinating routine cannot move while it waits on the empty channel, and a
schedule is any finite sequence of steps, so every state on the way counts
as reached.  `DEBUG` is taken to be unset, so `debug` prints nothing. -/

/-- Where a goroutine stands: before its `getName`, holding the result,
having written the map (line 126 or 150), holding the new maximum computed
from the map and the old maximum (right-hand side of line 127 or 151),
about to send on `readyChan`, about to load `readyCount`, holding the
loaded value about to store it incremented, or returned. -/
inductive TaskPc where
  | start
  | fetched (r : String × Option String)
  | wroteMap
  | measured (m : Nat)
  | sending
  | loading
  | storing (v : Int)
  | done
deriving DecidableEq, Repr

/-- Where the coordinating routine stands: in the walk with the entries
still to visit, at the test of the wait loop (line 163), at the receive of
line 164, past the loop with the records built (line 177), with the
records sorted (line 179), with `paddingName` computed (line 182), with
`paddingService` computed (line 183), with `paddingPlan` computed and `k`
of the `Printf` calls of lines 185-195 made, or stopped by the nil-pointer
panic. -/
inductive MainPc where
  | walking (rest : List CFResource)
  | waiting
  | receiving
  | built (serviceInstances : ServiceInstances)
  | sorted (serviceInstances : ServiceInstances)
  | paddedName (serviceInstances : ServiceInstances) (paddingName : Nat)
  | paddedService (serviceInstances : ServiceInstances) (paddingName paddingService : Nat)
  | printing (serviceInstances : ServiceInstances)
      (paddingName paddingService paddingPlan : Nat) (k : Nat)
  | panicked
deriving DecidableEq, Repr

/-- The shared variables, the position of every dispatched goroutine (in
dispatch order), the number of signals buffered in `readyChan`, the
position of the coordinating routine, what has been written to standard
output, one element for each `Printf` call, and whether the runtime has
ended the program with its fatal error on map accesses. -/
structure Conc where
  vars : Vars
  pcs : List TaskPc
  chan : Nat
  main : MainPc
  stdout : List String
  fatal : Bool

/-- Who takes the next step: the coordinating routine, the goroutine
dispatched as number `i`, or the runtime's check on map accesses. -/
inductive Actor where
  | main
  | task (i : Nat)
  | runtime
deriving DecidableEq, Repr

/-- The state at line 106 for the given listing. -/
def Conc.init (resources : List CFResource) : Conc :=
  { vars := Vars.init, pcs := [], chan := 0, main := MainPc.walking resources, stdout := [],
    fatal := false }

/-- An access to one of the two name maps: which map, and whether it
writes. -/
structure Access where
  map : LookupKind
  writes : Bool
deriving DecidableEq, Repr

/-- Two accesses the runtime does not allow at once: to the same map, one
of them a write. -/
def Access.conflicts (a b : Access) : Bool :=
  decide (a.map = b.map) && (a.writes || b.writes)

/-- The map access the next step of a goroutine makes: the write of line
126 or 150, or the read of line 127 or 151; none at its other positions. -/
def Task.access (task : Task) : TaskPc → Option Access
  | TaskPc.fetched (_, none) => some ⟨task.kind, true⟩
  | TaskPc.wroteMap => some ⟨task.kind, false⟩
  | _ => none

/-- The map accesses the next step of the coordinating routine makes: in
the walk, for each GUID of the entry, the lookup of line 113 or 137,
followed by the write of line 114 or 138 when the GUID is new; on leaving
the wait loop, the reads of lines 173-174 when a record is built. -/
def mainAccesses (resources : List CFResource) (c : Conc) : List Access :=
  match c.main with
  | MainPc.walking (r :: _) =>
    match r.Entity with
    | none => []
    | some entity =>
      match entity.Name with
      | none => []
      | some _ =>
        (match entity.ServiceGUID with
         | some g => [Access.mk LookupKind.service (!c.vars.serviceNamesMap.has g)]
         | none => []) ++
        (match entity.ServicePlanGUID with
         | some g => [Access.mk LookupKind.plan (!c.vars.servicePlanNamesMap.has g)]
         | none => [])
  | MainPc.waiting =>
    if c.vars.readyCount < 0 then []
    else if (build c.vars [] resources).isEmpty then []
    else [Access.mk LookupKind.service false, Access.mk LookupKind.plan false]
  | _ => []

/-- The map accesses the next steps of the goroutines make, in dispatch
order. -/
def taskAccesses (c : Conc) : List Access :=
  (List.zip c.vars.tasks c.pcs).filterMap (fun p => p.1.access p.2)

/-- Whether two of the accesses listed conflict. -/
def raceIn : List Access → Bool
  | [] => false
  | a :: rest => rest.any (fun b => a.conflicts b) || raceIn rest

/-- Whether the next steps of two routines are conflicting accesses to one
map: the situation in which the runtime's check (fatal error "concurrent
map writes" or "concurrent map read and map write") can fire. -/
def mapRace (resources : List CFResource) (c : Conc) : Bool :=
  raceIn (mainAccesses resources c ++ taskAccesses c)

/-- Whether the program has been ended: by the runtime's fatal error, or
by the panic of the coordinating routine. -/
def Conc.stopped (c : Conc) : Bool :=
  c.fatal ||
  match c.main with
  | MainPc.panicked => true
  | _ => false

/-- One step of the coordinating routine; `none` when it cannot move (it
is blocked on the empty channel, or has ended). -/
def stepMain (resources : List CFResource) (c : Conc) : Option Conc :=
  match c.main with
  | MainPc.walking [] => some { c with main := MainPc.waiting }
  | MainPc.walking (r :: rest) =>
    match visit c.vars r with
    | none => some { c with main := MainPc.panicked }
    | some vars1 =>
      some { c with vars := vars1,
                    pcs := c.pcs ++
                      List.replicate (vars1.tasks.length - c.vars.tasks.length) TaskPc.start,
                    main := MainPc.walking rest }
  | MainPc.waiting =>
    if c.vars.readyCount < 0 then some { c with main := MainPc.receiving }
    else some { c with main := MainPc.built (build c.vars [] resources) }
  | MainPc.receiving =>
    if c.chan > 0 then some { c with chan := c.chan - 1, main := MainPc.waiting }
    else none
  | MainPc.built serviceInstances =>
    some { c with main := MainPc.sorted (sortSort serviceInstances) }
  | MainPc.sorted serviceInstances =>
    let paddingName := c.vars.maxNameLength + cellSpacing
    some { c with main := MainPc.paddedName serviceInstances paddingName }
  | MainPc.paddedName serviceInstances paddingName =>
    let paddingService := c.vars.maxServiceLength + cellSpacing
    some { c with main := MainPc.paddedService serviceInstances paddingName paddingService }
  | MainPc.paddedService serviceInstances paddingName paddingService =>
    let paddingPlan := c.vars.maxServicePlanLength + cellSpacing
    some { c with main :=
             MainPc.printing serviceInstances paddingName paddingService paddingPlan 0 }
  | MainPc.printing serviceInstances paddingName paddingService paddingPlan 0 =>
    some { c with stdout := c.stdout ++ [okText],
                  main :=
                    MainPc.printing serviceInstances paddingName paddingService paddingPlan 1 }
  | MainPc.printing serviceInstances paddingName paddingService paddingPlan 1 =>
    some { c with stdout := c.stdout ++ [headerText paddingName paddingService paddingPlan],
                  main :=
                    MainPc.printing serviceInstances paddingName paddingService paddingPlan 2 }
  | MainPc.printing serviceInstances paddingName paddingService paddingPlan (k + 2) =>
    match serviceInstances[k]? with
    | some row =>
      some { c with stdout := c.stdout ++ [rowText paddingName paddingService paddingPlan row],
                    main :=
                      MainPc.printing serviceInstances paddingName paddingService paddingPlan
                        (k + 3) }
    | none => none
  | MainPc.panicked => none

/-- One step of goroutine `i`; `none` when it cannot move (it does not
exist, is blocked on the full channel, or has returned). -/
def stepTask (t : Transport) (accessToken apiEndpoint : String) (capacity : Nat)
    (c : Conc) (i : Nat) : Option Conc :=
  match c.vars.tasks[i]?, c.pcs[i]? with
  | some task, some pc =>
    match pc with
    | TaskPc.start =>
      some { c with pcs := c.pcs.set i (TaskPc.fetched (lookup t accessToken apiEndpoint task)) }
    | TaskPc.fetched (_, some err) =>
      some { c with stdout := c.stdout ++ [failureText task.kind err],
                    pcs := c.pcs.set i TaskPc.sending }
    | TaskPc.fetched (name, none) =>
      match task.kind with
      | LookupKind.service =>
        some { c with vars := { c.vars with
                                serviceNamesMap := c.vars.serviceNamesMap.set task.guid name },
                      pcs := c.pcs.set i TaskPc.wroteMap }
      | LookupKind.plan =>
        some { c with vars := { c.vars with
                                servicePlanNamesMap :=
                                  c.vars.servicePlanNamesMap.set task.guid name },
                      pcs := c.pcs.set i TaskPc.wroteMap }
    | TaskPc.wroteMap =>
      match task.kind with
      | LookupKind.service =>
        let m := max (len (c.vars.serviceNamesMap.index task.guid)) c.vars.maxServiceLength
        some { c with pcs := c.pcs.set i (TaskPc.measured m) }
      | LookupKind.plan =>
        let m := max (len (c.vars.servicePlanNamesMap.index task.guid))
          c.vars.maxServicePlanLength
        some { c with pcs := c.pcs.set i (TaskPc.measured m) }
    | TaskPc.measured m =>
      match task.kind with
      | LookupKind.service =>
        some { c with vars := { c.vars with maxServiceLength := m },
                      pcs := c.pcs.set i TaskPc.sending }
      | LookupKind.plan =>
        some { c with vars := { c.vars with maxServicePlanLength := m },
                      pcs := c.pcs.set i TaskPc.sending }
    | TaskPc.sending =>
      if c.chan < capacity then
        some { c with chan := c.chan + 1, pcs := c.pcs.set i TaskPc.loading }
      else none
    | TaskPc.loading => some { c with pcs := c.pcs.set i (TaskPc.storing c.vars.readyCount) }
    | TaskPc.storing v =>
      some { c with vars := { c.vars with readyCount := v + 1 },
                    pcs := c.pcs.set i TaskPc.done }
    | TaskPc.done => none
  | _, _ => none

/-- The runtime's check fires: possible only in a state with conflicting
map accesses. -/
def stepRuntime (resources : List CFResource) (c : Conc) : Option Conc :=
  if mapRace resources c then some { c with fatal := true } else none

/-- One step of the actor chosen, none once the program has been ended;
the capacity of `readyChan` is the length of the listing (line 105). -/
def step (t : Transport) (accessToken apiEndpoint : String) (resources : List CFResource)
    (c : Conc) (a : Actor) : Option Conc :=
  if c.stopped then none
  else
    match a with
    | Actor.main => stepMain resources c
    | Actor.task i => stepTask t accessToken apiEndpoint resources.length c i
    | Actor.runtime => stepRuntime resources c

/-- The state a schedule leads to from `c`; `none` when it asks an actor
to move that cannot. -/
def runSchedule (t : Transport) (accessToken apiEndpoint : String)
    (resources : List CFResource) : Conc → List Actor → Option Conc
  | c, [] => some c
  | c, a :: rest =>
    match step t accessToken apiEndpoint resources c a with
    | none => none
    | some c1 => runSchedule t accessToken apiEndpoint resources c1 rest

/-- Run from line 98 on, for the listing `responseObject.Resources`: the
state its coordinating routine and goroutines reach when they act in the
order `schedule` gives. -/
def Run (t : Transport) (accessToken apiEndpoint : String) (responseObject : CFResponse)
    (schedule : List Actor) : Option Conc :=
  runSchedule t accessToken apiEndpoint responseObject.Resources
    (Conc.init responseObject.Resources) schedule

/-! ## Specification-side definitions -/

/-- The sort key of a record in the spec's words: service name, then plan
name, then instance name, compared lexicographically. -/
def sortKey (x : ServiceInstance) : Lex (String × Lex (String × String)) :=
  toLex (x.Service, toLex (x.Plan, x.Name))

/-- The check of the library's `sort.IsSorted`: no element is `Less` than
the element before it. -/
def IsSorted (a : ServiceInstances) : Prop :=
  ∀ (i : Nat) (h : i + 1 < a.length), a.Less ⟨i + 1, h⟩ ⟨i, Nat.lt_of_succ_lt h⟩ = false

/-- What holds of the shared variables throughout the walk of lines
107-160, as long as no goroutine has written yet: each map holds the
placeholder `""` exactly under the GUIDs dispatched so far, no goroutine is
dispatched twice, `readyCount` is minus the number of goroutines, and the
two resolved-name maxima are still zero. -/
structure WalkInv (st : Vars) : Prop where
  svc : ∀ g, st.serviceNamesMap g = if (⟨LookupKind.service, g⟩ : Task) ∈ st.tasks then some "" else none
  pln : ∀ g, st.servicePlanNamesMap g = if (⟨LookupKind.plan, g⟩ : Task) ∈ st.tasks then some "" else none
  nodup : st.tasks.Nodup
  count : st.readyCount = -(st.tasks.length : Int)
  maxS : st.maxServiceLength = 0
  maxP : st.maxServicePlanLength = 0

/-- The name, service GUID and plan GUID of an entry that carries an
entity with all three, in the spec's words; `none` for any other entry. -/
def completeEntry (resource : CFResource) : Option (String × String × String) :=
  match resource.Entity with
  | none => none
  | some entity =>
    match entity.Name, entity.ServiceGUID, entity.ServicePlanGUID with
    | some name, some sg, some pg => some (name, sg, pg)
    | _, _, _ => none

/-- The entries of a listing that carry all three fields, in listing
order. -/
def completeEntries (resources : List CFResource) : List (String × String × String) :=
  resources.filterMap completeEntry

/-- The service GUIDs carried by the entries of a listing, in listing
order, repetitions included. -/
def carriedServices (resources : List CFResource) : List String :=
  resources.filterMap (fun r => r.Entity.bind (fun e => e.ServiceGUID))

/-- The plan GUIDs carried by the entries of a listing. -/
def carriedPlans (resources : List CFResource) : List String :=
  resources.filterMap (fun r => r.Entity.bind (fun e => e.ServicePlanGUID))

/-- The names of the entries that have an entity and a name. -/
def carriedNames (resources : List CFResource) : List String :=
  resources.filterMap (fun r => r.Entity.bind (fun e => e.Name))

/-- The GUIDs of one kind carried by the entries of a listing. -/
def carried (kind : LookupKind) (resources : List CFResource) : List String :=
  match kind with
  | LookupKind.service => carriedServices resources
  | LookupKind.plan => carriedPlans resources

/-- The name a finished lookup leaves in its map: the name returned when
the error is nil, the placeholder `""` otherwise. -/
def resolved (r : String × Option String) : String :=
  match r with
  | (name, none) => name
  | (_, some _) => ""

/-- Whether every entry of a listing that has an entity also has a name. -/
def namesPresent (resources : List CFResource) : Bool :=
  resources.all (fun r =>
    match r.Entity with
    | some entity => entity.Name.isSome
    | none => true)

/-- The length of the longest name among the entries of a listing that
have an entity, zero when there is none: what the walk leaves in
`maxNameLength`. -/
def longestName (resources : List CFResource) : Nat :=
  (carriedNames resources).foldl (fun m n => max (len n) m) 0

/-- A value a goroutine of the given kind can leave in the maximum of its
column: zero, or the length of a name that a lookup of that kind, for a
GUID of the listing, returned without error. -/
def Recorded (t : Transport) (accessToken apiEndpoint : String) (resources : List CFResource)
    (kind : LookupKind) (m : Nat) : Prop :=
  m = 0 ∨ ∃ g ∈ carried kind resources, ∃ name,
    lookup t accessToken apiEndpoint ⟨kind, g⟩ = (name, none) ∧ m = len name

/-- The records `l` correspond one by one, in listing order, to the
entries of the listing that carry all three fields, each record bearing
the name of its entry. -/
def NamesOf (resources : List CFResource) (l : ServiceInstances) : Prop :=
  List.Forall₂ (fun e row => row.Name = e.1) (completeEntries resources) l

/-- The rows are the sorted arrangement of records built from the
listing. -/
def SortedFrom (resources : List CFResource) (rows : ServiceInstances) : Prop :=
  ∃ l, NamesOf resources l ∧ rows = sortSort l

/-! ## Invariant of the interleaved run -/

/-- The map cell a goroutine writes: its GUID's entry in the map of its
kind. -/
def Task.cell (vars : Vars) (task : Task) : Option String :=
  match task.kind with
  | LookupKind.service => vars.serviceNamesMap task.guid
  | LookupKind.plan => vars.servicePlanNamesMap task.guid

/-- What the cell of a goroutine holds at each of its positions, given
the result `r` of its lookup: the placeholder until the map write, the
resolved name from then on. -/
def expectedCell (r : String × Option String) : TaskPc → String
  | TaskPc.start => ""
  | TaskPc.fetched _ => ""
  | _ => resolved r

/-- What a goroutine holds at its position: the result of its lookup, or
a value that may be recorded as the maximum of its column. -/
def holdsResult (t : Transport) (accessToken apiEndpoint : String)
    (resources : List CFResource) (task : Task) : TaskPc → Prop
  | TaskPc.fetched q => q = lookup t accessToken apiEndpoint task
  | TaskPc.measured m => Recorded t accessToken apiEndpoint resources task.kind m
  | _ => True

/-- The shared variables with everything the goroutines write taken
back: every map value is the placeholder again, the maxima are zero and
`readyCount` is minus the number of goroutines dispatched. -/
def Vars.erase (vars : Vars) : Vars :=
  { maxNameLength := vars.maxNameLength,
    maxServiceLength := 0,
    maxServicePlanLength := 0,
    serviceNamesMap := fun g => (vars.serviceNamesMap g).map (fun _ => ""),
    servicePlanNamesMap := fun g => (vars.servicePlanNamesMap g).map (fun _ => ""),
    readyCount := -(vars.tasks.length : Int),
    tasks := vars.tasks }

/-- Where the walk stands for each position of the coordinating routine:
`rest` are the entries not yet visited; after a panic the first of them
has an entity without a name. -/
def mainAt : MainPc → List CFResource → Prop
  | MainPc.walking r, rest => r = rest
  | MainPc.panicked, rest =>
    ∃ r todo entity, rest = r :: todo ∧ r.Entity = some entity ∧ entity.Name = none
  | _, rest => rest = []

/-- What the coordinating routine holds at each position past the wait
loop: records that bear the names of the complete entries in listing
order, then their sorted arrangement; a name width that is the longest
listed name plus `cellSpacing`; service and plan widths that are a
recorded maximum plus `cellSpacing`. -/
def mainHolds (t : Transport) (accessToken apiEndpoint : String)
    (resources : List CFResource) : MainPc → Prop
  | MainPc.built l => NamesOf resources l
  | MainPc.sorted rows => SortedFrom resources rows
  | MainPc.paddedName rows paddingName =>
    SortedFrom resources rows ∧ paddingName = longestName resources + cellSpacing
  | MainPc.paddedService rows paddingName paddingService =>
    SortedFrom resources rows ∧ paddingName = longestName resources + cellSpacing ∧
    ∃ m, paddingService = m + cellSpacing ∧
      Recorded t accessToken apiEndpoint resources LookupKind.service m
  | MainPc.printing rows paddingName paddingService paddingPlan _ =>
    SortedFrom resources rows ∧ paddingName = longestName resources + cellSpacing ∧
    (∃ m, paddingService = m + cellSpacing ∧
      Recorded t accessToken apiEndpoint resources LookupKind.service m) ∧
    ∃ m, paddingPlan = m + cellSpacing ∧
      Recorded t accessToken apiEndpoint resources LookupKind.plan m
  | _ => True

/-- What holds in every state an interleaved run of the listing
`resources` reaches: every dispatched goroutine has a position, its map
cell holds what its position says, the two maxima are recorded values,
the goroutines' writes taken back the variables are those of the walk over
the entries visited so far, and the coordinating routine holds what
`mainHolds` says. -/
structure ConcInv (t : Transport) (accessToken apiEndpoint : String)
    (resources : List CFResource) (c : Conc) : Prop where
  len : c.pcs.length = c.vars.tasks.length
  cells : ∀ (i : Nat) (task : Task) (pc : TaskPc),
    c.vars.tasks[i]? = some task → c.pcs[i]? = some pc →
    task.cell c.vars = some (expectedCell (lookup t accessToken apiEndpoint task) pc) ∧
    holdsResult t accessToken apiEndpoint resources task pc
  maxS : Recorded t accessToken apiEndpoint resources LookupKind.service c.vars.maxServiceLength
  maxP : Recorded t accessToken apiEndpoint resources LookupKind.plan c.vars.maxServicePlanLength
  walked : ∃ visited rest, resources = visited ++ rest ∧
    collect Vars.init visited = some c.vars.erase ∧
    mainAt c.main rest
  holds : mainHolds t accessToken apiEndpoint resources c.main

/-- What the coordinating routine has printed at each position: the first
`k` of the OK line, the header line and the row lines, in this order, once
the widths are computed; nothing before. -/
def printed : MainPc → List String
  | MainPc.printing rows paddingName paddingService paddingPlan k =>
    ([okText, headerText paddingName paddingService paddingPlan] ++
      rows.map (rowText paddingName paddingService paddingPlan)).take k
  | _ => []

/-- What holds of standard output in every state an interleaved run
reaches: the lines of the coordinating routine stand in it in their order,
everything else in it is a failure text of a goroutine, and no more row
lines are printed than there are rows. -/
structure OutInv (c : Conc) : Prop where
  bound : ∀ rows paddingName paddingService paddingPlan k,
    c.main = MainPc.printing rows paddingName paddingService paddingPlan k → k ≤ rows.length + 2
  sub : (printed c.main).Sublist c.stdout
  rest : ∃ others, (∀ s ∈ others, ∃ kind err, s = failureText kind err) ∧
    c.stdout.Perm (printed c.main ++ others)

/-- The rows the coordinating routine holds once it has sorted the
records. -/
def MainPc.rows : MainPc → Option ServiceInstances
  | MainPc.sorted rows => some rows
  | MainPc.paddedName rows _ => some rows
  | MainPc.paddedService rows _ _ => some rows
  | MainPc.printing rows _ _ _ _ => some rows
  | _ => none

/-- The width a column would have in the spec's words: the length of the
longest of its values, the header label among them, plus 3. -/
def widthWithLabel (label : String) (values : List String) : Nat :=
  (label :: values).foldl (fun m v => max (len v) m) 0 + 3

/-! ## Concrete inputs used to exercise the theorems -/

/-- A transport whose every request succeeds with status 200 and whose
body decodes to the resource `decode url` for the URL requested. -/
def okTransport (decode : String → Except String CFResource) : Transport :=
  { newRequest := fun _ => .ok (),
    doRequest := fun _ url => .ok { StatusCode := 200, Status := "200 OK", Body := .ok url },
    unmarshal := decode }

/-- A transport whose every request is answered with status 404. -/
def notFoundTransport : Transport :=
  { newRequest := fun _ => .ok (),
    doRequest := fun _ _ => .ok { StatusCode := 404, Status := "404 Not Found", Body := .ok "" },
    unmarshal := fun _ => .error "unexpected end of JSON input" }

/-- The spec's example lookup: an entity with label "MySQL Database" and
name "p-mysql". -/
def mysqlResource : CFResource :=
  { Metadata := none,
    Entity := some { Name := some "p-mysql", Label := some "MySQL Database",
                     ServiceGUID := none, ServicePlanGUID := none } }

/-- A transport whose every request succeeds with status 200 and whose
body decodes to an entity named as `table` says for the URL requested, and
fails to decode for a URL the table does not list. -/
def tableTransport (table : List (String × String)) : Transport :=
  { newRequest := fun _ => .ok (),
    doRequest := fun _ url => .ok { StatusCode := 200, Status := "200 OK", Body := .ok url },
    unmarshal := fun body =>
      match table.lookup body with
      | some name => .ok { Metadata := none,
                           Entity := some { Name := some name, Label := none,
                                            ServiceGUID := none, ServicePlanGUID := none } }
      | none => .error "unexpected end of JSON input" }

/-- A listing entry with the given name, service GUID and plan GUID. -/
def entry (name : Option String) (sg pg : Option String) : CFResource :=
  { Metadata := none,
    Entity := some { Name := name, Label := none, ServiceGUID := sg, ServicePlanGUID := pg } }

/-- A response holding the given listing. -/
def listingOf (resources : List CFResource) : CFResponse :=
  { TotalResults := resources.length, TotalPages := 1, PrevURL := none, NextURL := none,
    Resources := resources }

/-- The spec's example listing: db1 and db2 on svcA/planX, cache1 on
svcB/planY. -/
def exampleListing : CFResponse :=
  listingOf [entry (some "db1") (some "svcA") (some "planX"),
             entry (some "cache1") (some "svcB") (some "planY"),
             entry (some "db2") (some "svcA") (some "planX")]

/-- The spec's example lookups behind the endpoint "api": svcA is mysql,
svcB is redis, planX is small, planY is free. -/
def exampleTransport : Transport :=
  tableTransport [("api/v2/services/svcA", "mysql"), ("api/v2/services/svcB", "redis"),
                  ("api/v2/service_plans/planX", "small"), ("api/v2/service_plans/planY", "free")]

/-- A listing whose second entry has no plan GUID and whose third entry
has no entity. -/
def mixedListing : CFResponse :=
  listingOf [entry (some "db1") (some "svcA") (some "planX"),
             entry (some "orphan") (some "svcB") none,
             { Metadata := none, Entity := none }]

/-- A listing whose only entry has a service GUID and a plan GUID but no
name. -/
def namelessListing : CFResponse :=
  listingOf [entry none (some "svcA") (some "planX")]

/-- A listing of two instances of service s, on plans p and q, with
between them an entry without a plan GUID whose name is longer than any
value of the name column. -/
def orphanListing : CFResponse :=
  listingOf [entry (some "db") (some "s") (some "p"),
             entry (some "a-long-orphan") (some "s") none,
             entry (some "c") (some "s") (some "q")]

/-- The lookups for `orphanListing`: service s is s3, plan p is x, plan q
is enterprise. -/
def shortTransport : Transport :=
  tableTransport [("api/v2/services/s", "s3"), ("api/v2/service_plans/p", "x"),
                  ("api/v2/service_plans/q", "enterprise")]

/-- The seven steps of a goroutine whose lookup succeeds, from its
`getName` to its return. -/
def wholeTask (i : Nat) : List Actor :=
  List.replicate 7 (Actor.task i)

/-- A schedule for the spec's example listing: the walk dispatches the
lookups of svcA and planX; the svcA goroutine runs to its end; the planX
goroutine runs up to the load of its `readyCount++`; the walk visits the
second entry, dispatching svcB and planY; the planX goroutine stores its
incremented value; the walk visits the third entry and ends, and the
coordinating routine tests the wait loop. -/
def raceSchedule : List Actor :=
  [Actor.main] ++ wholeTask 0 ++ List.replicate 6 (Actor.task 1) ++
  [Actor.main, Actor.task 1, Actor.main, Actor.main, Actor.main]

/-- The schedule `raceSchedule` with one more step: the svcB goroutine
receives the result of its lookup before the planX goroutine stores its
incremented value, and is still holding it when the wait loop is left. -/
def staleSchedule : List Actor :=
  [Actor.main] ++ wholeTask 0 ++ List.replicate 6 (Actor.task 1) ++
  [Actor.main, Actor.task 2, Actor.task 1, Actor.main, Actor.main, Actor.main]

/-- A schedule for the spec's example listing in which the wait loop does
its work: the walk ends, three goroutines run to their end, the fourth
waits to send on the full channel until the coordinating routine has
received once, and `readyCount` is back at 0 when the loop is tested
next. -/
def joinSchedule : List Actor :=
  List.replicate 4 Actor.main ++ wholeTask 0 ++ wholeTask 1 ++ wholeTask 2 ++
  List.replicate 4 (Actor.task 3) ++ [Actor.main, Actor.main] ++
  List.replicate 3 (Actor.task 3)

/-- The schedule `joinSchedule` followed by the rest of the coordinating
routine: the loop test, the building, the sort, the three widths and the
five `Printf` calls. -/
def printSchedule : List Actor :=
  joinSchedule ++ List.replicate 10 Actor.main

/-- A schedule for `mixedListing`: the walk ends, the three goroutines run
to their end one after another, and the wait loop is left. -/
def mixedSchedule : List Actor :=
  List.replicate 4 Actor.main ++ wholeTask 0 ++ wholeTask 1 ++ wholeTask 2 ++ [Actor.main]

/-- A schedule for `orphanListing` without any overlap: the walk ends,
the three goroutines run to their end one after another, and the
coordinating routine runs to its last `Printf`. -/
def orphanSchedule : List Actor :=
  List.replicate 4 Actor.main ++ wholeTask 0 ++ wholeTask 1 ++ wholeTask 2 ++
  List.replicate 9 Actor.main

/-- A schedule for `orphanListing` in which an update of
`maxServicePlanLength` is lost: the walk ends and the service goroutine
runs to its end; the goroutines of plans p and q each write the map and
evaluate the right-hand side of line 151 while the maximum is still 0; the
goroutine of q stores 10 and runs to its end; the goroutine of p stores 1
and runs to its end; the coordinating routine runs to its last `Printf`. -/
def lostMaxSchedule : List Actor :=
  List.replicate 4 Actor.main ++ wholeTask 0 ++
  List.replicate 3 (Actor.task 1) ++ List.replicate 3 (Actor.task 2) ++
  List.replicate 4 (Actor.task 2) ++ List.replicate 4 (Actor.task 1) ++
  List.replicate 9 Actor.main

/-- A schedule for the spec's example listing that ends in the runtime's
fatal error: the walk dispatches the lookups of svcA and planX, the svcA
goroutine receives its name, and its write to `serviceNamesMap` meets the
write of the walk for svcB. -/
def crashSchedule : List Actor :=
  [Actor.main, Actor.task 0, Actor.runtime]

/-- A schedule for the spec's example listing after which the coordinating
routine waits for ever: the walk ends; the goroutines of svcA and planX
both load `readyCount` (-4) and both store -3; the goroutines of svcB and
planY run to their end, the last one sending once the coordinating routine
has received; the coordinating routine receives the remaining signals and,
`readyCount` being -1, waits on the empty channel. -/
def blockSchedule : List Actor :=
  List.replicate 4 Actor.main ++ List.replicate 6 (Actor.task 0) ++
  List.replicate 6 (Actor.task 1) ++ [Actor.task 0, Actor.task 1] ++ wholeTask 2 ++
  List.replicate 4 (Actor.task 3) ++ [Actor.main, Actor.main] ++
  List.replicate 3 (Actor.task 3) ++ List.replicate 7 Actor.main

/-! ## Ordering lemmas -/

theorem lexLess_iff (l m : List Char) : lexLess l m = true ↔ l < m := by
  induction l generalizing m with
  | nil =>
    cases m with
    | nil => simp [lexLess]
    | cons b bs => simp only [lexLess, true_iff]; exact List.Lex.nil
  | cons a as ih =>
    cases m with
    | nil => simp [lexLess]
    | cons b bs =>
      simp only [lexLess]
      by_cases hab : a < b
      · simp only [hab, if_true, true_iff]
        exact List.Lex.rel hab
      · by_cases hba : b < a
        · simp only [hab, hba, if_false, if_true, Bool.false_eq_true, false_iff]
          intro h
          exact absurd (List.head_le_of_lt h) (not_le.mpr hba)
        · simp only [hab, hba, if_false]
          have hEq : a = b := le_antisymm (not_lt.mp hba) (not_lt.mp hab)
          subst hEq
          rw [ih]
          exact (List.Lex.cons_iff).symm

theorem stringLess_iff (s t : String) : stringLess s t = true ↔ s < t := by
  unfold stringLess
  rw [lexLess_iff]
  exact String.lt_iff_toList_lt.symm

theorem Less_eq_precedes (a : ServiceInstances) (i j : Fin a.length) :
    a.Less i j = precedes (a.get i) (a.get j) := rfl

theorem precedes_iff (x y : ServiceInstance) :
    precedes x y = true ↔
      x.Service < y.Service ∨ (x.Service = y.Service ∧ x.Plan < y.Plan) ∨
        (x.Service = y.Service ∧ x.Plan = y.Plan ∧ x.Name < y.Name) := by
  simp only [precedes, ServiceInstances.Less, List.get, Bool.or_eq_true, Bool.and_eq_true,
    decide_eq_true_iff, stringLess_iff]
  tauto

theorem precedes_iff_sortKey (x y : ServiceInstance) :
    precedes x y = true ↔ sortKey x < sortKey y := by
  rw [precedes_iff]
  simp only [sortKey, Prod.Lex.lt_iff, ofLex_toLex]
  tauto

theorem sortKey_injective : Function.Injective sortKey := by
  intro x y h
  cases x; cases y
  simp only [sortKey] at h
  have h1 := congrArg ofLex h
  simp only [ofLex_toLex, Prod.mk.injEq] at h1
  obtain ⟨hs, h2⟩ := h1
  have h3 := congrArg ofLex h2
  simp only [ofLex_toLex, Prod.mk.injEq] at h3
  obtain ⟨hp, hn⟩ := h3
  subst hs hp hn
  rfl

theorem precedes_eq_false_iff (x y : ServiceInstance) :
    precedes x y = false ↔ sortKey y ≤ sortKey x := by
  rw [← not_lt, ← precedes_iff_sortKey]
  simp

/-! ## The sort -/

theorem sink_perm (x : ServiceInstance) (l : List ServiceInstance) :
    (sink x l).Perm (x :: l) := by
  induction l with
  | nil => exact List.Perm.refl _
  | cons y ys ih =>
    unfold sink
    split
    · exact (List.Perm.cons y ih).trans (List.Perm.swap x y ys)
    · exact List.Perm.refl _

theorem foldl_sink_perm (l acc : List ServiceInstance) :
    (l.foldl (fun done x => sink x done) acc).Perm (l ++ acc) := by
  induction l generalizing acc with
  | nil => exact List.Perm.refl _
  | cons x xs ih =>
    simp only [List.foldl_cons, List.cons_append]
    refine (ih (sink x acc)).trans ?_
    refine (List.Perm.append_left xs (sink_perm x acc)).trans ?_
    exact List.perm_middle

theorem sortSort_perm (a : ServiceInstances) : (sortSort a).Perm a := by
  unfold sortSort
  refine (List.reverse_perm _).trans ?_
  simpa using foldl_sink_perm a []

theorem sink_descending (x : ServiceInstance) (l : List ServiceInstance)
    (h : l.Pairwise (fun y z => sortKey z ≤ sortKey y)) :
    (sink x l).Pairwise (fun y z => sortKey z ≤ sortKey y) := by
  induction l with
  | nil => simp [sink]
  | cons y ys ih =>
    rw [List.pairwise_cons] at h
    unfold sink
    split
    · rename_i hxy
      rw [precedes_iff_sortKey] at hxy
      rw [List.pairwise_cons]
      refine ⟨?_, ih h.2⟩
      intro z hz
      rcases List.mem_cons.mp ((sink_perm x ys).mem_iff.mp hz) with hzx | hzy
      · subst hzx; exact le_of_lt hxy
      · exact h.1 z hzy
    · rename_i hxy
      have hyx : sortKey y ≤ sortKey x := by
        rw [← precedes_eq_false_iff]
        simpa using hxy
      rw [List.pairwise_cons]
      refine ⟨?_, List.pairwise_cons.mpr h⟩
      intro z hz
      rcases List.mem_cons.mp hz with hzy | hzys
      · subst hzy; exact hyx
      · exact le_trans (h.1 z hzys) hyx

theorem foldl_sink_descending (l acc : List ServiceInstance)
    (h : acc.Pairwise (fun y z => sortKey z ≤ sortKey y)) :
    (l.foldl (fun done x => sink x done) acc).Pairwise (fun y z => sortKey z ≤ sortKey y) := by
  induction l generalizing acc with
  | nil => exact h
  | cons x xs ih => exact ih (sink x acc) (sink_descending x acc h)

theorem sortSort_pairwise (a : ServiceInstances) :
    (sortSort a).Pairwise (fun x y => sortKey x ≤ sortKey y) := by
  unfold sortSort
  rw [List.pairwise_reverse]
  exact foldl_sink_descending a [] List.Pairwise.nil

theorem isSorted_iff_chain (a : ServiceInstances) :
    IsSorted a ↔ List.Chain' (fun x y => precedes y x = false) a := by
  rw [List.chain'_iff_get]
  unfold IsSorted
  constructor
  · intro h i hi
    have h1 : i + 1 < a.length := by omega
    exact h i h1
  · intro h i hi
    have h1 : i < a.length - 1 := by omega
    exact h i h1

theorem isSorted_iff_pairwise (a : ServiceInstances) :
    IsSorted a ↔ a.Pairwise (fun x y => sortKey x ≤ sortKey y) := by
  rw [isSorted_iff_chain]
  have hrel : (fun x y : ServiceInstance => precedes y x = false) =
      (fun x y => sortKey x ≤ sortKey y) := by
    funext x y
    exact propext (precedes_eq_false_iff y x)
  rw [hrel]
  have htrans : IsTrans ServiceInstance (fun x y => sortKey x ≤ sortKey y) :=
    ⟨fun _ _ _ h1 h2 => le_trans h1 h2⟩
  exact List.chain'_iff_pairwise

theorem sortSort_isSorted (a : ServiceInstances) : IsSorted (sortSort a) :=
  (isSorted_iff_pairwise _).mpr (sortSort_pairwise a)

theorem isSorted_unique (a b : ServiceInstances) (hp : a.Perm b)
    (ha : IsSorted a) (hb : IsSorted b) : a = b := by
  rw [isSorted_iff_pairwise] at ha hb
  have hanti : IsAntisymm ServiceInstance (fun x y => sortKey x ≤ sortKey y) :=
    ⟨fun _ _ h1 h2 => sortKey_injective (le_antisymm h1 h2)⟩
  exact List.eq_of_perm_of_sorted hp ha hb

theorem sortSort_unique (a b : ServiceInstances) (hp : b.Perm a) (hb : IsSorted b) :
    b = sortSort a :=
  isSorted_unique b (sortSort a) (hp.trans (sortSort_perm a).symm) hb (sortSort_isSorted a)

/-! ## C10: the ordering -/

/-- C10: `Less(i, j)` holds exactly when the (Service, Plan, Name) triple of
record `i` is lexicographically smaller than that of record `j`; `Less` is
irreflexive and transitive, its incomparability is transitive, and two
records with neither `Less` than the other are equal; hence any two sorted
arrangements of the same records coincide, and sorting a sorted slice (in
particular re-sorting) leaves it unchanged. -/
theorem Less_strict_total_order :
    (∀ (a : ServiceInstances) (i j : Fin a.length),
        a.Less i j = true ↔ sortKey (a.get i) < sortKey (a.get j)) ∧
    (∀ (a : ServiceInstances) (i : Fin a.length), a.Less i i = false) ∧
    (∀ (a : ServiceInstances) (i j k : Fin a.length),
        a.Less i j = true → a.Less j k = true → a.Less i k = true) ∧
    (∀ (a : ServiceInstances) (i j k : Fin a.length),
        a.Less i j = false → a.Less j i = false → a.Less j k = false → a.Less k j = false →
        a.Less i k = false ∧ a.Less k i = false) ∧
    (∀ (a : ServiceInstances) (i j : Fin a.length),
        a.Less i j = false → a.Less j i = false → a.get i = a.get j) ∧
    (∀ a b : ServiceInstances, a.Perm b → IsSorted a → IsSorted b → a = b) ∧
    (∀ a : ServiceInstances, IsSorted a → sortSort a = a) ∧
    (∀ a : ServiceInstances, sortSort (sortSort a) = sortSort a) := by
  refine ⟨?_, ?_, ?_, ?_, ?_, ?_, ?_, ?_⟩
  · intro a i j
    rw [Less_eq_precedes, precedes_iff_sortKey]
  · intro a i
    rw [Less_eq_precedes, precedes_eq_false_iff]
  · intro a i j k
    simp only [Less_eq_precedes, precedes_iff_sortKey]
    exact lt_trans
  · intro a i j k
    simp only [Less_eq_precedes, precedes_eq_false_iff]
    intro h1 h2 h3 h4
    exact ⟨le_trans h3 h1, le_trans h2 h4⟩
  · intro a i j
    simp only [Less_eq_precedes, precedes_eq_false_iff]
    intro h1 h2
    exact sortKey_injective (le_antisymm h2 h1)
  · exact isSorted_unique
  · intro a ha
    exact (sortSort_unique a a (List.Perm.refl a) ha).symm
  · intro a
    exact (sortSort_unique (sortSort a) (sortSort a) (List.Perm.refl _) (sortSort_isSorted a)).symm

/-! ## C5 and C6: getName -/

/-- C5: for a response with status 200 whose body decodes to a resource
with an entity, `getName` returns no error and the display name is the
label when one is present, otherwise the name when one is present,
otherwise the empty string. -/
theorem getName_display_name (t : Transport) (accessToken url : String) (response : Response)
    (body : String) (res : CFResource) (entity : CFResourceEntity)
    (hreq : t.newRequest url = .ok ()) (hdo : t.doRequest accessToken url = .ok response)
    (hstatus : response.StatusCode = 200) (hbody : response.Body = .ok body)
    (hdec : t.unmarshal body = .ok res) (hent : res.Entity = some entity) :
    (getName t accessToken url).2 = none ∧
    (∀ label, entity.Label = some label → (getName t accessToken url).1 = label) ∧
    (entity.Label = none → ∀ name, entity.Name = some name →
      (getName t accessToken url).1 = name) ∧
    (entity.Label = none → entity.Name = none → (getName t accessToken url).1 = "") := by
  unfold getName
  simp only [hreq, hdo, hstatus, hbody, hdec, hent]
  cases hl : entity.Label with
  | some l => simp
  | none =>
    cases hn : entity.Name with
    | some n => simp
    | none => simp

/-- C5 at the spec's example: label "MySQL Database" and name "p-mysql"
resolve to the label. -/
theorem getName_display_name_witness :
    (getName (okTransport (fun _ => .ok mysqlResource)) "bearer" "api/v2/services/s1").2 = none ∧
    (getName (okTransport (fun _ => .ok mysqlResource)) "bearer" "api/v2/services/s1").1
      = "MySQL Database" :=
  have h := getName_display_name (okTransport (fun _ => .ok mysqlResource)) "bearer"
    "api/v2/services/s1" { StatusCode := 200, Status := "200 OK", Body := .ok "api/v2/services/s1" }
    "api/v2/services/s1" mysqlResource
    { Name := some "p-mysql", Label := some "MySQL Database", ServiceGUID := none,
      ServicePlanGUID := none } rfl rfl rfl rfl rfl rfl
  ⟨h.1, h.2.1 "MySQL Database" rfl⟩

/-- C6: for a response that was received and, when its status is 200, whose
body was read and decoded, `getName` returns an error exactly when the
status is not 200 or the decoded resource has no entity; whenever it
returns an error the display name is empty; a non-200 status gives the
error naming the response status and a missing entity gives the error
"Entity not found". -/
theorem getName_error_cases (t : Transport) (accessToken url : String) (response : Response)
    (hreq : t.newRequest url = .ok ()) (hdo : t.doRequest accessToken url = .ok response)
    (hread : response.StatusCode = 200 →
      ∃ body res, response.Body = .ok body ∧ t.unmarshal body = .ok res) :
    ((getName t accessToken url).2 ≠ none ↔
      (response.StatusCode ≠ 200 ∨
        ∃ body res, response.Body = .ok body ∧ t.unmarshal body = .ok res ∧ res.Entity = none)) ∧
    ((getName t accessToken url).2 ≠ none → (getName t accessToken url).1 = "") ∧
    (response.StatusCode ≠ 200 →
      getName t accessToken url = ("", some ("Response returned error " ++ response.Status))) ∧
    (∀ body res, response.StatusCode = 200 → response.Body = .ok body →
      t.unmarshal body = .ok res → res.Entity = none →
      getName t accessToken url = ("", some "Entity not found")) := by
  by_cases hs : response.StatusCode = 200
  · obtain ⟨body, res, hb, hd⟩ := hread hs
    unfold getName
    simp only [hreq, hdo, hs, hb, hd]
    cases he : res.Entity with
    | none => simp [hd, he]
    | some entity =>
      cases hl : entity.Label with
      | some l =>
        simp [hd, he, hl]
        intro b r hbb hdd
        subst hbb
        rw [hd] at hdd
        cases hdd
        simp [he]
      | none =>
        cases hn : entity.Name with
        | some n =>
          simp [hd, he, hl, hn]
          intro b r hbb hdd
          subst hbb
          rw [hd] at hdd
          cases hdd
          simp [he]
        | none =>
          simp [hd, he, hl, hn]
          intro b r hbb hdd
          subst hbb
          rw [hd] at hdd
          cases hdd
          simp [he]
  · unfold getName
    simp [hreq, hdo, hs]

/-- C6 at a 404 response: the error names the status and the name is
empty. -/
theorem getName_error_cases_witness :
    getName notFoundTransport "bearer" "api/v2/services/s1"
      = ("", some "Response returned error 404 Not Found") :=
  (getName_error_cases notFoundTransport "bearer" "api/v2/services/s1"
    { StatusCode := 404, Status := "404 Not Found", Body := .ok "" } rfl rfl
    (fun h => absurd h (by decide))).2.2.1 (by decide)

/-! ## The walk -/

theorem WalkInv_init : WalkInv Vars.init :=
  { svc := fun _ => by simp [Vars.init, NamesMap.empty],
    pln := fun _ => by simp [Vars.init, NamesMap.empty],
    nodup := List.nodup_nil,
    count := by simp [Vars.init],
    maxS := rfl,
    maxP := rfl }

theorem visitService_spec (st : Vars) (guid : Option String) (hinv : WalkInv st) :
    WalkInv (visitService st guid) ∧
    (∀ task, task ∈ (visitService st guid).tasks ↔
      task ∈ st.tasks ∨ ∃ g, guid = some g ∧ task = ⟨LookupKind.service, g⟩) ∧
    (visitService st guid).maxNameLength = st.maxNameLength := by
  cases guid with
  | none => simp [visitService, hinv]
  | some g =>
    by_cases hhas : st.serviceNamesMap.has g = true
    · have hmem : (⟨LookupKind.service, g⟩ : Task) ∈ st.tasks := by
        by_contra hno
        have := hinv.svc g
        simp [hno] at this
        simp [NamesMap.has, this] at hhas
      have e : visitService st (some g) = st := by simp [visitService, hhas]
      rw [e]
      refine ⟨hinv, ?_, rfl⟩
      intro task
      constructor
      · intro h; exact Or.inl h
      · rintro (h | ⟨g', hg', rfl⟩)
        · exact h
        · cases hg'; exact hmem
    · have hno : (⟨LookupKind.service, g⟩ : Task) ∉ st.tasks := by
        intro hmem
        have := hinv.svc g
        simp [hmem] at this
        simp [NamesMap.has, this] at hhas
      have e : visitService st (some g) =
          { st with serviceNamesMap := st.serviceNamesMap.set g "",
                    readyCount := st.readyCount - 1,
                    tasks := st.tasks ++ [⟨LookupKind.service, g⟩] } := by
        simp [visitService, hhas]
      rw [e]
      refine ⟨?_, ?_, rfl⟩
      · refine ⟨?_, ?_, ?_, ?_, hinv.maxS, hinv.maxP⟩
        · intro q
          show NamesMap.set st.serviceNamesMap g "" q = _
          by_cases hq : q = g
          · simp [NamesMap.set, hq]
          · simp [NamesMap.set, hq, hinv.svc q]
        · intro q
          show _ = if (_ : Task) ∈ st.tasks ++ [(⟨LookupKind.service, g⟩ : Task)] then some "" else none
          simp [hinv.pln q]
        · show (st.tasks ++ [(⟨LookupKind.service, g⟩ : Task)]).Nodup
          rw [List.nodup_append]
          refine ⟨hinv.nodup, List.nodup_singleton _, ?_⟩
          intro a ha hb
          rw [List.mem_singleton] at hb
          subst hb
          exact hno ha
        · show st.readyCount - 1 = -(((st.tasks ++ [(⟨LookupKind.service, g⟩ : Task)]).length : Nat) : Int)
          rw [hinv.count, List.length_append, List.length_singleton]
          push_cast
          ring
      · intro task
        show task ∈ st.tasks ++ [(⟨LookupKind.service, g⟩ : Task)] ↔ _
        rw [List.mem_append, List.mem_singleton]
        constructor
        · rintro (h | h)
          · exact Or.inl h
          · exact Or.inr ⟨g, rfl, h⟩
        · rintro (h | ⟨g', hg', h⟩)
          · exact Or.inl h
          · cases hg'; exact Or.inr h

theorem visitPlan_spec (st : Vars) (guid : Option String) (hinv : WalkInv st) :
    WalkInv (visitPlan st guid) ∧
    (∀ task, task ∈ (visitPlan st guid).tasks ↔
      task ∈ st.tasks ∨ ∃ g, guid = some g ∧ task = ⟨LookupKind.plan, g⟩) ∧
    (visitPlan st guid).maxNameLength = st.maxNameLength := by
  cases guid with
  | none => simp [visitPlan, hinv]
  | some g =>
    by_cases hhas : st.servicePlanNamesMap.has g = true
    · have hmem : (⟨LookupKind.plan, g⟩ : Task) ∈ st.tasks := by
        by_contra hno
        have := hinv.pln g
        simp [hno] at this
        simp [NamesMap.has, this] at hhas
      have e : visitPlan st (some g) = st := by simp [visitPlan, hhas]
      rw [e]
      refine ⟨hinv, ?_, rfl⟩
      intro task
      constructor
      · intro h; exact Or.inl h
      · rintro (h | ⟨g', hg', rfl⟩)
        · exact h
        · cases hg'; exact hmem
    · have hno : (⟨LookupKind.plan, g⟩ : Task) ∉ st.tasks := by
        intro hmem
        have := hinv.pln g
        simp [hmem] at this
        simp [NamesMap.has, this] at hhas
      have e : visitPlan st (some g) =
          { st with servicePlanNamesMap := st.servicePlanNamesMap.set g "",
                    readyCount := st.readyCount - 1,
                    tasks := st.tasks ++ [⟨LookupKind.plan, g⟩] } := by
        simp [visitPlan, hhas]
      rw [e]
      refine ⟨?_, ?_, rfl⟩
      · refine ⟨?_, ?_, ?_, ?_, hinv.maxS, hinv.maxP⟩
        · intro q
          show _ = if (_ : Task) ∈ st.tasks ++ [(⟨LookupKind.plan, g⟩ : Task)] then some "" else none
          simp [hinv.svc q]
        · intro q
          show NamesMap.set st.servicePlanNamesMap g "" q = _
          by_cases hq : q = g
          · simp [NamesMap.set, hq]
          · simp [NamesMap.set, hq, hinv.pln q]
        · show (st.tasks ++ [(⟨LookupKind.plan, g⟩ : Task)]).Nodup
          rw [List.nodup_append]
          refine ⟨hinv.nodup, List.nodup_singleton _, ?_⟩
          intro a ha hb
          rw [List.mem_singleton] at hb
          subst hb
          exact hno ha
        · show st.readyCount - 1 = -(((st.tasks ++ [(⟨LookupKind.plan, g⟩ : Task)]).length : Nat) : Int)
          rw [hinv.count, List.length_append, List.length_singleton]
          push_cast
          ring
      · intro task
        show task ∈ st.tasks ++ [(⟨LookupKind.plan, g⟩ : Task)] ↔ _
        rw [List.mem_append, List.mem_singleton]
        constructor
        · rintro (h | h)
          · exact Or.inl h
          · exact Or.inr ⟨g, rfl, h⟩
        · rintro (h | ⟨g', hg', h⟩)
          · exact Or.inl h
          · cases hg'; exact Or.inr h

theorem carriedServices_cons (r : CFResource) (rest : List CFResource) :
    carriedServices (r :: rest) = carriedServices [r] ++ carriedServices rest := by
  simp only [carriedServices]
  rw [← List.filterMap_append]
  rfl

theorem carriedPlans_cons (r : CFResource) (rest : List CFResource) :
    carriedPlans (r :: rest) = carriedPlans [r] ++ carriedPlans rest := by
  simp only [carriedPlans]
  rw [← List.filterMap_append]
  rfl

theorem carriedNames_cons (r : CFResource) (rest : List CFResource) :
    carriedNames (r :: rest) = carriedNames [r] ++ carriedNames rest := by
  simp only [carriedNames]
  rw [← List.filterMap_append]
  rfl

theorem visit_spec (st st' : Vars) (r : CFResource) (h : visit st r = some st')
    (hinv : WalkInv st) :
    WalkInv st' ∧
    (∀ task, task ∈ st'.tasks ↔ task ∈ st.tasks ∨
      (task.kind = LookupKind.service ∧ task.guid ∈ carriedServices [r]) ∨
      (task.kind = LookupKind.plan ∧ task.guid ∈ carriedPlans [r])) ∧
    st'.maxNameLength = (carriedNames [r]).foldl (fun m n => max (len n) m) st.maxNameLength := by
  unfold visit at h
  cases he : r.Entity with
  | none =>
    simp only [he] at h
    cases h
    simp [carriedServices, carriedPlans, carriedNames, he, hinv]
  | some entity =>
    simp only [he] at h
    cases hn : entity.Name with
    | none => simp [hn] at h
    | some name =>
      simp only [hn, Option.some.injEq] at h
      subst h
      have hinv1 : WalkInv { st with maxNameLength := max (len name) st.maxNameLength } :=
        ⟨hinv.svc, hinv.pln, hinv.nodup, hinv.count, hinv.maxS, hinv.maxP⟩
      obtain ⟨hi2, hm2, hn2⟩ := visitService_spec _ entity.ServiceGUID hinv1
      obtain ⟨hi3, hm3, hn3⟩ := visitPlan_spec _ entity.ServicePlanGUID hi2
      refine ⟨hi3, ?_, ?_⟩
      · intro task
        rw [hm3, hm2]
        simp only [carriedServices, carriedPlans, List.filterMap_cons, List.filterMap_nil, he,
          Option.bind_some]
        obtain ⟨k, q⟩ := task
        rcases hs : entity.ServiceGUID with _ | s
        · rcases hp : entity.ServicePlanGUID with _ | p
          · simp [hs, hp]
          · simp [hs, hp]
        · rcases hp : entity.ServicePlanGUID with _ | p
          · simp [hs, hp]
          · simp [hs, hp]
            tauto
      · rw [hn3, hn2]
        simp [carriedNames, he, hn]

theorem collect_spec (l : List CFResource) (st st' : Vars) (h : collect st l = some st')
    (hinv : WalkInv st) :
    WalkInv st' ∧
    (∀ task, task ∈ st'.tasks ↔ task ∈ st.tasks ∨
      (task.kind = LookupKind.service ∧ task.guid ∈ carriedServices l) ∨
      (task.kind = LookupKind.plan ∧ task.guid ∈ carriedPlans l)) ∧
    st'.maxNameLength = (carriedNames l).foldl (fun m n => max (len n) m) st.maxNameLength := by
  induction l generalizing st with
  | nil =>
    simp only [collect, Option.some.injEq] at h
    subst h
    simp [carriedServices, carriedPlans, carriedNames, hinv]
  | cons r rest ih =>
    simp only [collect] at h
    cases hv : visit st r with
    | none => simp [hv] at h
    | some st1 =>
      simp only [hv] at h
      obtain ⟨hi1, hm1, hn1⟩ := visit_spec st st1 r hv hinv
      obtain ⟨hi2, hm2, hn2⟩ := ih st1 h hi1
      refine ⟨hi2, ?_, ?_⟩
      · intro task
        rw [hm2, hm1, carriedServices_cons r rest, carriedPlans_cons r rest]
        simp only [List.mem_append]
        tauto
      · rw [hn2, hn1, carriedNames_cons r rest, List.foldl_append]

theorem collect_isSome (l : List CFResource) (st : Vars)
    (hnames : ∀ r ∈ l, ∀ entity, r.Entity = some entity → entity.Name ≠ none) :
    ∃ st', collect st l = some st' := by
  induction l generalizing st with
  | nil => exact ⟨st, rfl⟩
  | cons r rest ih =>
    simp only [collect]
    have hr := hnames r (List.mem_cons_self r rest)
    have hrest : ∀ q ∈ rest, ∀ entity, q.Entity = some entity → entity.Name ≠ none :=
      fun q hq => hnames q (List.mem_cons_of_mem r hq)
    cases he : r.Entity with
    | none =>
      simp only [visit, he]
      exact ih st hrest
    | some entity =>
      cases hn : entity.Name with
      | none => exact absurd hn (hr entity he)
      | some name =>
        simp only [visit, he, hn]
        exact ih _ hrest


/-! ## The source's max -/

theorem max_le_iff (a b c : Nat) : max a b ≤ c ↔ a ≤ c ∧ b ≤ c := by
  unfold max
  split <;> omega

theorem max_cases (a b : Nat) : max a b = a ∨ max a b = b := by
  unfold max
  split <;> simp

theorem le_max_left (a b : Nat) : a ≤ max a b := by
  unfold max
  split <;> omega

theorem le_max_right (a b : Nat) : b ≤ max a b := by
  unfold max
  split <;> omega


/-! ## Building the records -/

theorem completeEntries_cons (r : CFResource) (rest : List CFResource) :
    completeEntries (r :: rest) =
      (match completeEntry r with
        | some e => [e]
        | none => []) ++ completeEntries rest := by
  unfold completeEntries
  rw [List.filterMap_cons]
  cases completeEntry r <;> rfl

theorem build_eq (st : Vars) (acc : ServiceInstances) (l : List CFResource) :
    build st acc l = acc ++ (completeEntries l).map (fun e =>
      ({ Name := e.1, Service := st.serviceNamesMap.index e.2.1,
         Plan := st.servicePlanNamesMap.index e.2.2 } : ServiceInstance)) := by
  induction l generalizing acc with
  | nil => simp [build, completeEntries]
  | cons r rest ih =>
    rw [completeEntries_cons]
    unfold build
    rcases he : r.Entity with _ | entity
    · simp [completeEntry, he, ih]
    · rcases hn : entity.Name with _ | name
      · simp [completeEntry, he, hn, ih]
      · rcases hs : entity.ServiceGUID with _ | sg
        · simp [completeEntry, he, hn, hs, ih]
        · rcases hp : entity.ServicePlanGUID with _ | pg
          · simp [completeEntry, he, hn, hs, hp, ih]
          · simp [completeEntry, he, hn, hs, hp, ih]

theorem completeEntry_carried (l : List CFResource) (e : String × String × String)
    (he : e ∈ completeEntries l) :
    e.2.1 ∈ carriedServices l ∧ e.2.2 ∈ carriedPlans l ∧ e.1 ∈ carriedNames l := by
  unfold completeEntries at he
  rw [List.mem_filterMap] at he
  obtain ⟨r, hr, hre⟩ := he
  unfold completeEntry at hre
  rcases hent : r.Entity with _ | entity
  · simp [hent] at hre
  · rcases hn : entity.Name with _ | name
    · simp [hent, hn] at hre
    · rcases hs : entity.ServiceGUID with _ | sg
      · simp [hent, hn, hs] at hre
      · rcases hp : entity.ServicePlanGUID with _ | pg
        · simp [hent, hn, hs, hp] at hre
        · simp only [hent, hn, hs, hp, Option.some.injEq] at hre
          subst hre
          refine ⟨?_, ?_, ?_⟩
          · exact List.mem_filterMap.mpr ⟨r, hr, by simp [hent, hs]⟩
          · exact List.mem_filterMap.mpr ⟨r, hr, by simp [hent, hp]⟩
          · exact List.mem_filterMap.mpr ⟨r, hr, by simp [hent, hn]⟩


theorem length_filterMap_isSome {α β : Type} (f : α → Option β) (l : List α) :
    (l.filterMap f).length = (l.filter (fun a => (f a).isSome)).length := by
  induction l with
  | nil => rfl
  | cons a rest ih =>
    rw [List.filterMap_cons, List.filter_cons]
    cases h : f a <;> simp [ih]

theorem eq_map_of_forall₂ {α β : Type} (f : α → β) (l : List α) (m : List β)
    (h : List.Forall₂ (fun a b => b = f a) l m) : m = l.map f := by
  induction h with
  | nil => rfl
  | cons h1 _ ih => rw [h1, ih]; rfl

/-! ## C3: dispatch and the nil name -/

theorem namesPresent_spec (l : List CFResource) (h : namesPresent l = true) :
    ∀ r ∈ l, ∀ entity, r.Entity = some entity → entity.Name ≠ none := by
  intro r hr entity he
  unfold namesPresent at h
  rw [List.all_eq_true] at h
  have := h r hr
  simp only [he] at this
  intro hn
  simp [hn] at this


theorem dispatchedServices_mem (st : Vars) (g : String) :
    g ∈ dispatchedServices st ↔ (⟨LookupKind.service, g⟩ : Task) ∈ st.tasks := by
  unfold dispatchedServices
  rw [List.mem_filterMap]
  constructor
  · rintro ⟨⟨k, q⟩, hmem, hf⟩
    cases k <;> simp at hf
    subst hf
    exact hmem
  · intro h
    exact ⟨_, h, by simp⟩

theorem dispatchedPlans_mem (st : Vars) (g : String) :
    g ∈ dispatchedPlans st ↔ (⟨LookupKind.plan, g⟩ : Task) ∈ st.tasks := by
  unfold dispatchedPlans
  rw [List.mem_filterMap]
  constructor
  · rintro ⟨⟨k, q⟩, hmem, hf⟩
    cases k <;> simp at hf
    subst hf
    exact hmem
  · intro h
    exact ⟨_, h, by simp⟩

theorem dispatched_nodup (st : Vars) (h : st.tasks.Nodup) :
    (dispatchedServices st).Nodup ∧ (dispatchedPlans st).Nodup := by
  constructor
  · unfold dispatchedServices
    refine List.Nodup.filterMap ?_ h
    rintro ⟨k, q⟩ ⟨k', q'⟩ b hb hb'
    cases k <;> cases k' <;> simp at hb hb'
    subst hb hb'
    rfl
  · unfold dispatchedPlans
    refine List.Nodup.filterMap ?_ h
    rintro ⟨k, q⟩ ⟨k', q'⟩ b hb hb'
    cases k <;> cases k' <;> simp at hb hb'
    subst hb hb'
    rfl

/-- The dedup property of a walk that runs to its end: the service lookups
dispatched are, without repetition, exactly the service GUIDs carried by
the entries, so there are as many as there are distinct GUIDs; likewise
the plan lookups; and `readyCount` is minus their total. -/
theorem collect_dispatches_each_once (l : List CFResource) (st0 : Vars)
    (h : collect Vars.init l = some st0) :
    (dispatchedServices st0).Nodup ∧ (dispatchedPlans st0).Nodup ∧
    (∀ g, g ∈ dispatchedServices st0 ↔ g ∈ carriedServices l) ∧
    (∀ g, g ∈ dispatchedPlans st0 ↔ g ∈ carriedPlans l) ∧
    (dispatchedServices st0).length = (carriedServices l).toFinset.card ∧
    (dispatchedPlans st0).length = (carriedPlans l).toFinset.card ∧
    st0.readyCount = -(st0.tasks.length : Int) := by
  obtain ⟨hinv, hmem, _⟩ := collect_spec l Vars.init st0 h WalkInv_init
  obtain ⟨hs, hp⟩ := dispatched_nodup st0 hinv.nodup
  have hms : ∀ g, g ∈ dispatchedServices st0 ↔ g ∈ carriedServices l := by
    intro g
    rw [dispatchedServices_mem, hmem]
    simp [Vars.init]
  have hmp : ∀ g, g ∈ dispatchedPlans st0 ↔ g ∈ carriedPlans l := by
    intro g
    rw [dispatchedPlans_mem, hmem]
    simp [Vars.init]
  refine ⟨hs, hp, hms, hmp, ?_, ?_, hinv.count⟩
  · rw [← List.toFinset_card_of_nodup hs]
    congr 1
    ext g
    simp [hms g]
  · rw [← List.toFinset_card_of_nodup hp]
    congr 1
    ext g
    simp [hmp g]

/-- C3 at a listing whose only entry has a service GUID and a plan GUID but
no name: the entries carry one distinct service GUID and one distinct plan
GUID, and the walk is cut short by the nil-pointer panic of line 109
before any lookup is dispatched. -/
theorem collect_nameless_entry :
    (carriedServices namelessListing.Resources).toFinset.card = 1 ∧
    (carriedPlans namelessListing.Resources).toFinset.card = 1 ∧
    collect Vars.init namelessListing.Resources = none := by
  refine ⟨by decide, by decide, rfl⟩

/-! ## Padding -/

theorem length_le_len (s : String) : s.length ≤ len s := by
  obtain ⟨cs⟩ := s
  show cs.length ≤ String.utf8ByteSize ⟨cs⟩
  rw [String.utf8ByteSize_mk]
  induction cs with
  | nil => simp
  | cons c rest ih =>
    rw [String.utf8Len_cons, List.length_cons]
    have := Char.utf8Size_pos c
    omega

theorem spaces_length (n : Nat) : (spaces n).length = n := by
  simp [spaces, String.length]

theorem sprintfPadded_length (width : Nat) (v : String) :
    (sprintfPadded width v).length = Max.max width v.length := by
  unfold sprintfPadded
  rw [String.length_append, spaces_length]
  omega

theorem foldl_max_len (names : List String) (init : Nat) :
    init ≤ names.foldl (fun m n => max (len n) m) init ∧
    (∀ n ∈ names, len n ≤ names.foldl (fun m n => max (len n) m) init) ∧
    (names.foldl (fun m n => max (len n) m) init = init ∨
      ∃ n ∈ names, len n = names.foldl (fun m n => max (len n) m) init) := by
  induction names generalizing init with
  | nil => simp
  | cons x rest ih =>
    obtain ⟨h1, h2, h3⟩ := ih (max (len x) init)
    rw [List.foldl_cons]
    refine ⟨le_trans (le_max_right _ _) h1, ?_, ?_⟩
    · intro n hn
      rcases List.mem_cons.mp hn with rfl | hn
      · exact le_trans (le_max_left _ _) h1
      · exact h2 n hn
    · rcases h3 with h3 | ⟨n, hn, hl⟩
      · rcases max_cases (len x) init with hm | hm
        · right
          exact ⟨x, List.mem_cons_self _ _, by rw [h3, hm]⟩
        · left
          rw [h3, hm]
      · right
        exact ⟨n, List.mem_cons_of_mem _ hn, hl⟩


/-! ## Invariant of the interleaved run -/

theorem erase_visitService (st : Vars) (guid : Option String) :
    (visitService st guid).erase = visitService st.erase guid := by
  cases guid with
  | none => rfl
  | some g =>
    have hhas : st.erase.serviceNamesMap.has g = st.serviceNamesMap.has g := by
      simp [Vars.erase, NamesMap.has]
    by_cases h : st.serviceNamesMap.has g = true
    · simp [visitService, h, hhas]
    · simp only [visitService, h, hhas]
      simp only [Vars.erase, Bool.false_eq_true, if_false, List.length_append,
        List.length_singleton, Vars.mk.injEq, true_and, and_true]
      refine ⟨?_, ?_⟩
      · funext q
        by_cases hq : q = g
        · simp [NamesMap.set, hq]
        · simp [NamesMap.set, hq]
      · push_cast
        ring

theorem erase_visitPlan (st : Vars) (guid : Option String) :
    (visitPlan st guid).erase = visitPlan st.erase guid := by
  cases guid with
  | none => rfl
  | some g =>
    have hhas : st.erase.servicePlanNamesMap.has g = st.servicePlanNamesMap.has g := by
      simp [Vars.erase, NamesMap.has]
    by_cases h : st.servicePlanNamesMap.has g = true
    · simp [visitPlan, h, hhas]
    · simp only [visitPlan, h, hhas]
      simp only [Vars.erase, Bool.false_eq_true, if_false, List.length_append,
        List.length_singleton, Vars.mk.injEq, true_and, and_true]
      refine ⟨?_, ?_⟩
      · funext q
        by_cases hq : q = g
        · simp [NamesMap.set, hq]
        · simp [NamesMap.set, hq]
      · push_cast
        ring

theorem erase_visit (st : Vars) (r : CFResource) :
    (visit st r).map Vars.erase = visit st.erase r := by
  unfold visit
  rcases he : r.Entity with _ | entity
  · simp [he]
  · rcases hn : entity.Name with _ | name
    · simp [he, hn]
    · simp only [he, hn, Option.map_some']
      rw [erase_visitPlan, erase_visitService]
      rfl

theorem collect_append (l1 l2 : List CFResource) (st : Vars) :
    collect st (l1 ++ l2) = (collect st l1).bind (fun s => collect s l2) := by
  induction l1 generalizing st with
  | nil => rfl
  | cons r rest ih =>
    simp only [List.cons_append, collect]
    cases visit st r with
    | none => rfl
    | some s => exact ih s

theorem visitService_frame (st : Vars) (guid : Option String) :
    ∃ new, (visitService st guid).tasks = st.tasks ++ new ∧
      (∀ task ∈ new, task.cell (visitService st guid) = some "") ∧
      (∀ task : Task, task.cell st ≠ none →
        task.cell (visitService st guid) = task.cell st) := by
  cases guid with
  | none => exact ⟨[], by simp [visitService], by simp, fun _ _ => rfl⟩
  | some g =>
    by_cases h : st.serviceNamesMap.has g = true
    · exact ⟨[], by simp [visitService, h], by simp, fun _ _ => by simp [visitService, h]⟩
    · have hnone : st.serviceNamesMap g = none := by
        simpa [NamesMap.has] using h
      refine ⟨[⟨LookupKind.service, g⟩], by simp [visitService, h], ?_, ?_⟩
      · intro task htask
        rw [List.mem_singleton] at htask
        subst htask
        simp [visitService, h, Task.cell, NamesMap.set]
      · rintro ⟨k, q⟩ hcell
        cases k
        · have hq : q ≠ g := by
            intro hq
            subst hq
            exact hcell hnone
          simp [visitService, h, Task.cell, NamesMap.set, hq]
        · simp [visitService, h, Task.cell]

theorem visitPlan_frame (st : Vars) (guid : Option String) :
    ∃ new, (visitPlan st guid).tasks = st.tasks ++ new ∧
      (∀ task ∈ new, task.cell (visitPlan st guid) = some "") ∧
      (∀ task : Task, task.cell st ≠ none →
        task.cell (visitPlan st guid) = task.cell st) := by
  cases guid with
  | none => exact ⟨[], by simp [visitPlan], by simp, fun _ _ => rfl⟩
  | some g =>
    by_cases h : st.servicePlanNamesMap.has g = true
    · exact ⟨[], by simp [visitPlan, h], by simp, fun _ _ => by simp [visitPlan, h]⟩
    · have hnone : st.servicePlanNamesMap g = none := by
        simpa [NamesMap.has] using h
      refine ⟨[⟨LookupKind.plan, g⟩], by simp [visitPlan, h], ?_, ?_⟩
      · intro task htask
        rw [List.mem_singleton] at htask
        subst htask
        simp [visitPlan, h, Task.cell, NamesMap.set]
      · rintro ⟨k, q⟩ hcell
        cases k
        · simp [visitPlan, h, Task.cell]
        · have hq : q ≠ g := by
            intro hq
            subst hq
            exact hcell hnone
          simp [visitPlan, h, Task.cell, NamesMap.set, hq]

theorem visit_frame (st st1 : Vars) (r : CFResource) (h : visit st r = some st1) :
    ∃ new, st1.tasks = st.tasks ++ new ∧
      (∀ task ∈ new, task.cell st1 = some "") ∧
      (∀ task : Task, task.cell st ≠ none → task.cell st1 = task.cell st) := by
  unfold visit at h
  rcases he : r.Entity with _ | entity
  · simp only [he, Option.some.injEq] at h
    subst h
    exact ⟨[], by simp, by simp, fun _ _ => rfl⟩
  · rcases hn : entity.Name with _ | name
    · simp [he, hn] at h
    · simp only [he, hn, Option.some.injEq] at h
      subst h
      obtain ⟨n1, ht1, hc1, hf1⟩ := visitService_frame
        { st with maxNameLength := max (len name) st.maxNameLength } entity.ServiceGUID
      obtain ⟨n2, ht2, hc2, hf2⟩ := visitPlan_frame
        (visitService { st with maxNameLength := max (len name) st.maxNameLength }
          entity.ServiceGUID) entity.ServicePlanGUID
      refine ⟨n1 ++ n2, ?_, ?_, ?_⟩
      · rw [ht2, ht1, List.append_assoc]
      · intro task htask
        rcases List.mem_append.mp htask with h1 | h2
        · have := hc1 task h1
          rw [hf2 task (by rw [this]; simp), this]
        · exact hc2 task h2
      · intro task hcell
        have h1 := hf1 task hcell
        have hcell1 : task.cell (visitService
            { st with maxNameLength := max (len name) st.maxNameLength }
            entity.ServiceGUID) ≠ none := by
          rw [h1]
          exact hcell
        rw [hf2 task hcell1, h1]
        rfl

theorem erase_init : Vars.init.erase = Vars.init := by
  simp [Vars.erase, Vars.init, NamesMap.empty]
  rfl


theorem visitService_maxima (st : Vars) (guid : Option String) :
    (visitService st guid).maxServiceLength = st.maxServiceLength ∧
    (visitService st guid).maxServicePlanLength = st.maxServicePlanLength := by
  unfold visitService
  rcases guid with _ | g
  · exact ⟨rfl, rfl⟩
  · by_cases h : st.serviceNamesMap.has g = true
    · simp [h]
    · simp [h]

theorem visitPlan_maxima (st : Vars) (guid : Option String) :
    (visitPlan st guid).maxServiceLength = st.maxServiceLength ∧
    (visitPlan st guid).maxServicePlanLength = st.maxServicePlanLength := by
  unfold visitPlan
  rcases guid with _ | g
  · exact ⟨rfl, rfl⟩
  · by_cases h : st.servicePlanNamesMap.has g = true
    · simp [h]
    · simp [h]

theorem visit_maxima (st st1 : Vars) (r : CFResource) (h : visit st r = some st1) :
    st1.maxServiceLength = st.maxServiceLength ∧
    st1.maxServicePlanLength = st.maxServicePlanLength := by
  unfold visit at h
  rcases he : r.Entity with _ | entity
  · simp only [he, Option.some.injEq] at h
    subst h
    exact ⟨rfl, rfl⟩
  · rcases hn : entity.Name with _ | name
    · simp [he, hn] at h
    · simp only [he, hn, Option.some.injEq] at h
      subst h
      obtain ⟨p1, p2⟩ := visitPlan_maxima
        (visitService { st with maxNameLength := max (len name) st.maxNameLength }
          entity.ServiceGUID) entity.ServicePlanGUID
      obtain ⟨s1, s2⟩ := visitService_maxima
        { st with maxNameLength := max (len name) st.maxNameLength } entity.ServiceGUID
      exact ⟨p1.trans s1, p2.trans s2⟩

theorem visit_eq_none (st : Vars) (r : CFResource) (h : visit st r = none) :
    ∃ entity, r.Entity = some entity ∧ entity.Name = none := by
  unfold visit at h
  rcases he : r.Entity with _ | entity
  · simp [he] at h
  · rcases hn : entity.Name with _ | name
    · exact ⟨entity, rfl, hn⟩
    · simp [he, hn] at h

theorem carried_append (kind : LookupKind) (l1 l2 : List CFResource) (g : String)
    (h : g ∈ carried kind l1) : g ∈ carried kind (l1 ++ l2) := by
  cases kind
  · simp only [carried, carriedServices, List.filterMap_append, List.mem_append] at h ⊢
    exact Or.inl h
  · simp only [carried, carriedPlans, List.filterMap_append, List.mem_append] at h ⊢
    exact Or.inl h

theorem ConcInv_init (t : Transport) (accessToken apiEndpoint : String)
    (resources : List CFResource) :
    ConcInv t accessToken apiEndpoint resources (Conc.init resources) :=
  { len := rfl,
    cells := fun i task pc h _ => by simp [Conc.init, Vars.init] at h,
    maxS := Or.inl rfl,
    maxP := Or.inl rfl,
    walked := ⟨[], resources, rfl, by rw [Conc.init, erase_init]; rfl, rfl⟩,
    holds := trivial }

theorem ConcInv.nodup {t : Transport} {accessToken apiEndpoint : String}
    {resources : List CFResource} {c : Conc}
    (hinv : ConcInv t accessToken apiEndpoint resources c) : c.vars.tasks.Nodup := by
  obtain ⟨visited, rest, _, hc, _⟩ := hinv.walked
  exact (collect_spec visited Vars.init _ hc WalkInv_init).1.nodup

theorem ConcInv.task_carried {t : Transport} {accessToken apiEndpoint : String}
    {resources : List CFResource} {c : Conc}
    (hinv : ConcInv t accessToken apiEndpoint resources c) (task : Task)
    (h : task ∈ c.vars.tasks) : task.guid ∈ carried task.kind resources := by
  obtain ⟨visited, rest, hres, hc, _⟩ := hinv.walked
  obtain ⟨_, hmem, _⟩ := collect_spec visited Vars.init _ hc WalkInv_init
  have h1 : task ∈ c.vars.erase.tasks := h
  rw [hres]
  rcases (hmem task).mp h1 with h0 | ⟨hk, hg⟩ | ⟨hk, hg⟩
  · simp [Vars.init] at h0
  · rw [hk]
    exact carried_append LookupKind.service visited rest _ hg
  · rw [hk]
    exact carried_append LookupKind.plan visited rest _ hg

theorem task_step_inv (t : Transport) (accessToken apiEndpoint : String)
    (resources : List CFResource) (c c1 : Conc) (i : Nat) (task : Task) (pc1 : TaskPc)
    (hinv : ConcInv t accessToken apiEndpoint resources c)
    (hti : c.vars.tasks[i]? = some task)
    (htasks : c1.vars.tasks = c.vars.tasks) (hpcs : c1.pcs = c.pcs.set i pc1)
    (hmain : c1.main = c.main) (herase : c1.vars.erase = c.vars.erase)
    (hother : ∀ other : Task, other ≠ task → other.cell c1.vars = other.cell c.vars)
    (hcell : task.cell c1.vars =
      some (expectedCell (lookup t accessToken apiEndpoint task) pc1))
    (hholds : holdsResult t accessToken apiEndpoint resources task pc1)
    (hmaxS : Recorded t accessToken apiEndpoint resources LookupKind.service
      c1.vars.maxServiceLength)
    (hmaxP : Recorded t accessToken apiEndpoint resources LookupKind.plan
      c1.vars.maxServicePlanLength) :
    ConcInv t accessToken apiEndpoint resources c1 := by
  have hi : i < c.vars.tasks.length := by
    rcases List.getElem?_eq_some.mp hti with ⟨h, _⟩
    exact h
  refine ⟨?_, ?_, hmaxS, hmaxP, ?_, ?_⟩
  · rw [hpcs, htasks, List.length_set, hinv.len]
  · intro j other pc hj hpj
    rw [htasks] at hj
    rw [hpcs, List.getElem?_set] at hpj
    by_cases hij : i = j
    · subst hij
      rw [hti] at hj
      cases hj
      rw [if_pos rfl, if_pos (by rw [hinv.len]; exact hi)] at hpj
      cases hpj
      exact ⟨hcell, hholds⟩
    · rw [if_neg hij] at hpj
      have hne : other ≠ task := by
        intro heq
        subst heq
        exact hij (List.getElem?_inj hi hinv.nodup (hti.trans hj.symm))
      rw [hother other hne]
      exact hinv.cells j other pc hj hpj
  · obtain ⟨visited, rest, hres, hc, hm⟩ := hinv.walked
    exact ⟨visited, rest, hres, by rw [herase]; exact hc, by rw [hmain]; exact hm⟩
  · rw [hmain]
    exact hinv.holds

theorem erase_set_service (vars : Vars) (g name : String)
    (h : vars.serviceNamesMap g = some "") :
    ({ vars with serviceNamesMap := vars.serviceNamesMap.set g name } : Vars).erase
      = vars.erase := by
  simp only [Vars.erase, Vars.mk.injEq, true_and, and_true]
  funext q
  by_cases hq : q = g
  · simp [NamesMap.set, hq, h]
  · simp [NamesMap.set, hq]

theorem erase_set_plan (vars : Vars) (g name : String)
    (h : vars.servicePlanNamesMap g = some "") :
    ({ vars with servicePlanNamesMap := vars.servicePlanNamesMap.set g name } : Vars).erase
      = vars.erase := by
  simp only [Vars.erase, Vars.mk.injEq, true_and, and_true]
  funext q
  by_cases hq : q = g
  · simp [NamesMap.set, hq, h]
  · simp [NamesMap.set, hq]

theorem recorded_measure (t : Transport) (accessToken apiEndpoint : String)
    (resources : List CFResource) (kind : LookupKind) (g : String) (old : Nat)
    (hg : g ∈ carried kind resources)
    (hold : Recorded t accessToken apiEndpoint resources kind old) :
    Recorded t accessToken apiEndpoint resources kind
      (max (len (resolved (lookup t accessToken apiEndpoint ⟨kind, g⟩))) old) := by
  rcases max_cases (len (resolved (lookup t accessToken apiEndpoint ⟨kind, g⟩))) old
    with hm | hm
  · rw [hm]
    rcases hl : lookup t accessToken apiEndpoint ⟨kind, g⟩ with ⟨name, _ | err⟩
    · exact Or.inr ⟨g, hg, name, hl, rfl⟩
    · exact Or.inl rfl
  · rw [hm]
    exact hold

theorem stepTask_inv (t : Transport) (accessToken apiEndpoint : String)
    (resources : List CFResource) (capacity : Nat) (c c1 : Conc) (i : Nat)
    (hinv : ConcInv t accessToken apiEndpoint resources c)
    (h : stepTask t accessToken apiEndpoint capacity c i = some c1) :
    ConcInv t accessToken apiEndpoint resources c1 := by
  unfold stepTask at h
  rcases hti : c.vars.tasks[i]? with _ | task
  · simp [hti] at h
  rcases hpi : c.pcs[i]? with _ | pc
  · simp [hti, hpi] at h
  simp only [hti, hpi] at h
  obtain ⟨hcell, hholds⟩ := hinv.cells i task pc hti hpi
  have hcar := hinv.task_carried task (List.mem_iff_getElem?.mpr ⟨i, hti⟩)
  cases pc with
  | start =>
    simp only [Option.some.injEq] at h
    subst h
    exact task_step_inv t accessToken apiEndpoint resources c _ i task _ hinv hti rfl rfl rfl rfl
      (fun _ _ => rfl) hcell rfl hinv.maxS hinv.maxP
  | fetched r =>
    obtain ⟨name, err⟩ := r
    simp only [holdsResult] at hholds
    cases err with
    | some e =>
      simp only [Option.some.injEq] at h
      subst h
      refine task_step_inv t accessToken apiEndpoint resources c _ i task _ hinv hti rfl rfl rfl
        rfl (fun _ _ => rfl) ?_ trivial hinv.maxS hinv.maxP
      rw [hcell, ← hholds]
      rfl
    | none =>
      obtain ⟨k, g⟩ := task
      cases k with
      | service =>
        simp only [Option.some.injEq] at h
        subst h
        have hold : c.vars.serviceNamesMap g = some "" := hcell
        refine task_step_inv t accessToken apiEndpoint resources c _ i _ _ hinv hti rfl rfl rfl
          (erase_set_service c.vars g name hold) ?_ ?_ trivial hinv.maxS hinv.maxP
        · rintro ⟨k2, g2⟩ hne
          cases k2
          · have hg : g2 ≠ g := fun hg => hne (by rw [hg])
            simp [Task.cell, NamesMap.set, hg]
          · rfl
        · rw [← hholds]
          simp [Task.cell, NamesMap.set, expectedCell, resolved]
      | plan =>
        simp only [Option.some.injEq] at h
        subst h
        have hold : c.vars.servicePlanNamesMap g = some "" := hcell
        refine task_step_inv t accessToken apiEndpoint resources c _ i _ _ hinv hti rfl rfl rfl
          (erase_set_plan c.vars g name hold) ?_ ?_ trivial hinv.maxS hinv.maxP
        · rintro ⟨k2, g2⟩ hne
          cases k2
          · rfl
          · have hg : g2 ≠ g := fun hg => hne (by rw [hg])
            simp [Task.cell, NamesMap.set, hg]
        · rw [← hholds]
          simp [Task.cell, NamesMap.set, expectedCell, resolved]
  | wroteMap =>
    obtain ⟨k, g⟩ := task
    cases k with
    | service =>
      simp only [Option.some.injEq] at h
      subst h
      refine task_step_inv t accessToken apiEndpoint resources c _ i _ _ hinv hti rfl rfl rfl rfl
        (fun _ _ => rfl) hcell ?_ hinv.maxS hinv.maxP
      have hidx : c.vars.serviceNamesMap.index g
          = resolved (lookup t accessToken apiEndpoint ⟨LookupKind.service, g⟩) := by
        have hc2 : c.vars.serviceNamesMap g = some _ := hcell
        simp [NamesMap.index, hc2, expectedCell]
      show Recorded t accessToken apiEndpoint resources LookupKind.service _
      rw [hidx]
      exact recorded_measure t accessToken apiEndpoint resources LookupKind.service g _ hcar
        hinv.maxS
    | plan =>
      simp only [Option.some.injEq] at h
      subst h
      refine task_step_inv t accessToken apiEndpoint resources c _ i _ _ hinv hti rfl rfl rfl rfl
        (fun _ _ => rfl) hcell ?_ hinv.maxS hinv.maxP
      have hidx : c.vars.servicePlanNamesMap.index g
          = resolved (lookup t accessToken apiEndpoint ⟨LookupKind.plan, g⟩) := by
        have hc2 : c.vars.servicePlanNamesMap g = some _ := hcell
        simp [NamesMap.index, hc2, expectedCell]
      show Recorded t accessToken apiEndpoint resources LookupKind.plan _
      rw [hidx]
      exact recorded_measure t accessToken apiEndpoint resources LookupKind.plan g _ hcar
        hinv.maxP
  | measured m =>
    obtain ⟨k, g⟩ := task
    cases k with
    | service =>
      simp only [Option.some.injEq] at h
      subst h
      exact task_step_inv t accessToken apiEndpoint resources c _ i _ _ hinv hti rfl rfl rfl rfl
        (fun _ _ => rfl) hcell trivial hholds hinv.maxP
    | plan =>
      simp only [Option.some.injEq] at h
      subst h
      exact task_step_inv t accessToken apiEndpoint resources c _ i _ _ hinv hti rfl rfl rfl rfl
        (fun _ _ => rfl) hcell trivial hinv.maxS hholds
  | sending =>
    by_cases hcap : c.chan < capacity
    · simp only [hcap, if_true, Option.some.injEq] at h
      subst h
      exact task_step_inv t accessToken apiEndpoint resources c _ i task _ hinv hti rfl rfl rfl
        rfl (fun _ _ => rfl) hcell trivial hinv.maxS hinv.maxP
    · simp [hcap] at h
  | loading =>
    simp only [Option.some.injEq] at h
    subst h
    exact task_step_inv t accessToken apiEndpoint resources c _ i task _ hinv hti rfl rfl rfl rfl
      (fun _ _ => rfl) hcell trivial hinv.maxS hinv.maxP
  | storing v =>
    simp only [Option.some.injEq] at h
    subst h
    exact task_step_inv t accessToken apiEndpoint resources c _ i task _ hinv hti rfl rfl rfl rfl
      (fun _ _ => rfl) hcell trivial hinv.maxS hinv.maxP
  | done => simp at h

theorem main_step_inv (t : Transport) (accessToken apiEndpoint : String)
    (resources : List CFResource) (c c1 : Conc)
    (hinv : ConcInv t accessToken apiEndpoint resources c)
    (hvars : c1.vars = c.vars) (hpcs : c1.pcs = c.pcs)
    (hat : ∀ rest, mainAt c.main rest → mainAt c1.main rest)
    (hholds : mainHolds t accessToken apiEndpoint resources c1.main) :
    ConcInv t accessToken apiEndpoint resources c1 := by
  obtain ⟨visited, rest, hres, hc, hm⟩ := hinv.walked
  refine ⟨?_, ?_, ?_, ?_, ?_, hholds⟩
  · rw [hvars, hpcs]
    exact hinv.len
  · rw [hvars, hpcs]
    exact hinv.cells
  · rw [hvars]
    exact hinv.maxS
  · rw [hvars]
    exact hinv.maxP
  · exact ⟨visited, rest, hres, by rw [hvars]; exact hc, hat rest hm⟩

theorem namesOf_build (resources : List CFResource) (st : Vars) :
    NamesOf resources (build st [] resources) := by
  rw [build_eq]
  unfold NamesOf
  rw [List.nil_append, List.forall₂_map_right_iff]
  exact List.forall₂_same.mpr (fun _ _ => rfl)

theorem ConcInv.maxName {t : Transport} {accessToken apiEndpoint : String}
    {resources : List CFResource} {c : Conc}
    (hinv : ConcInv t accessToken apiEndpoint resources c)
    (hdone : ∀ rest, mainAt c.main rest → rest = []) :
    c.vars.maxNameLength = longestName resources := by
  obtain ⟨visited, rest, hres, hc, hm⟩ := hinv.walked
  have hr := hdone rest hm
  subst hr
  rw [List.append_nil] at hres
  subst hres
  obtain ⟨_, _, hmax⟩ := collect_spec resources Vars.init _ hc WalkInv_init
  have h1 : c.vars.maxNameLength = c.vars.erase.maxNameLength := rfl
  rw [h1, hmax]
  rfl

theorem stepMain_inv (t : Transport) (accessToken apiEndpoint : String)
    (resources : List CFResource) (c c1 : Conc)
    (hinv : ConcInv t accessToken apiEndpoint resources c)
    (h : stepMain resources c = some c1) :
    ConcInv t accessToken apiEndpoint resources c1 := by
  obtain ⟨visited, rest, hres, hc, hm⟩ := hinv.walked
  have hholds := hinv.holds
  unfold stepMain at h
  rcases hmain : c.main with todo | _ | _ | l | rows | ⟨rows, wN⟩ | ⟨rows, wN, wS⟩ |
    ⟨rows, wN, wS, wP, k⟩ | _
  · rw [hmain] at hm
    simp only [mainAt] at hm
    subst hm
    cases todo with
    | nil =>
      simp only [hmain, Option.some.injEq] at h
      subst h
      exact main_step_inv t accessToken apiEndpoint resources c _ hinv rfl rfl
        (fun r hr => by rw [hmain] at hr; exact hr.symm) trivial
    | cons r todo =>
      simp only [hmain] at h
      rcases hv : visit c.vars r with _ | vars1
      · simp only [hv, Option.some.injEq] at h
        subst h
        obtain ⟨entity, he, hn⟩ := visit_eq_none c.vars r hv
        exact main_step_inv t accessToken apiEndpoint resources c _ hinv rfl rfl
          (fun r2 hr => by
            rw [hmain] at hr
            exact ⟨r, todo, entity, hr.symm, he, hn⟩) trivial
      · simp only [hv, Option.some.injEq] at h
        subst h
        obtain ⟨new, ht, hnew, hframe⟩ := visit_frame c.vars vars1 r hv
        obtain ⟨hmS, hmP⟩ := visit_maxima c.vars vars1 r hv
        have hlen : vars1.tasks.length - c.vars.tasks.length = new.length := by
          rw [ht, List.length_append]
          omega
        refine ⟨?_, ?_, ?_, ?_, ?_, trivial⟩
        · show (c.pcs ++ List.replicate _ TaskPc.start).length = vars1.tasks.length
          rw [List.length_append, List.length_replicate, hlen, hinv.len, ht, List.length_append]
        · intro j task pc hj hpj
          change vars1.tasks[j]? = some task at hj
          change (c.pcs ++ List.replicate _ TaskPc.start)[j]? = some pc at hpj
          by_cases hlt : j < c.vars.tasks.length
          · rw [ht, List.getElem?_append_left hlt] at hj
            rw [List.getElem?_append_left (by rw [hinv.len]; exact hlt)] at hpj
            obtain ⟨hcell, hh⟩ := hinv.cells j task pc hj hpj
            refine ⟨?_, hh⟩
            show task.cell vars1 = _
            rw [hframe task (by rw [hcell]; simp), hcell]
          · have hge : c.vars.tasks.length ≤ j := Nat.le_of_not_lt hlt
            rw [ht, List.getElem?_append_right hge] at hj
            rw [List.getElem?_append_right (by rw [hinv.len]; exact hge),
              List.getElem?_replicate] at hpj
            have hpc : pc = TaskPc.start := by
              split at hpj
              · cases hpj; rfl
              · cases hpj
            subst hpc
            have hmem : task ∈ new := List.mem_iff_getElem?.mpr ⟨_, hj⟩
            exact ⟨hnew task hmem, trivial⟩
        · show Recorded t accessToken apiEndpoint resources LookupKind.service
            vars1.maxServiceLength
          rw [hmS]
          exact hinv.maxS
        · show Recorded t accessToken apiEndpoint resources LookupKind.plan
            vars1.maxServicePlanLength
          rw [hmP]
          exact hinv.maxP
        · refine ⟨visited ++ [r], todo, by rw [hres]; simp, ?_, rfl⟩
          show collect Vars.init (visited ++ [r]) = some vars1.erase
          rw [collect_append, hc]
          simp only [Option.some_bind, collect]
          rw [← erase_visit, hv]
          rfl
  · simp only [hmain] at h
    split at h
    · simp only [Option.some.injEq] at h
      subst h
      exact main_step_inv t accessToken apiEndpoint resources c _ hinv rfl rfl
        (fun r hr => by rw [hmain] at hr; exact hr) trivial
    · simp only [Option.some.injEq] at h
      subst h
      exact main_step_inv t accessToken apiEndpoint resources c _ hinv rfl rfl
        (fun r hr => by rw [hmain] at hr; exact hr) (namesOf_build resources c.vars)
  · simp only [hmain] at h
    split at h
    · simp only [Option.some.injEq] at h
      subst h
      exact main_step_inv t accessToken apiEndpoint resources c _ hinv rfl rfl
        (fun r hr => by rw [hmain] at hr; exact hr) trivial
    · cases h
  · simp only [hmain, Option.some.injEq] at h
    subst h
    rw [hmain] at hholds
    exact main_step_inv t accessToken apiEndpoint resources c _ hinv rfl rfl
      (fun r hr => by rw [hmain] at hr; exact hr) ⟨l, hholds, rfl⟩
  · simp only [hmain, Option.some.injEq] at h
    subst h
    rw [hmain] at hholds
    have hname := hinv.maxName (fun r hr => by rw [hmain] at hr; exact hr)
    exact main_step_inv t accessToken apiEndpoint resources c _ hinv rfl rfl
      (fun r hr => by rw [hmain] at hr; exact hr) ⟨hholds, by rw [hname]⟩
  · simp only [hmain, Option.some.injEq] at h
    subst h
    rw [hmain] at hholds
    exact main_step_inv t accessToken apiEndpoint resources c _ hinv rfl rfl
      (fun r hr => by rw [hmain] at hr; exact hr)
      ⟨hholds.1, hholds.2, c.vars.maxServiceLength, rfl, hinv.maxS⟩
  · simp only [hmain, Option.some.injEq] at h
    subst h
    rw [hmain] at hholds
    exact main_step_inv t accessToken apiEndpoint resources c _ hinv rfl rfl
      (fun r hr => by rw [hmain] at hr; exact hr)
      ⟨hholds.1, hholds.2.1, hholds.2.2, c.vars.maxServicePlanLength, rfl, hinv.maxP⟩
  · rw [hmain] at hholds
    rcases k with _ | _ | k
    · simp only [hmain, Option.some.injEq] at h
      subst h
      exact main_step_inv t accessToken apiEndpoint resources c _ hinv rfl rfl
        (fun r hr => by rw [hmain] at hr; exact hr) hholds
    · simp only [hmain, Option.some.injEq] at h
      subst h
      exact main_step_inv t accessToken apiEndpoint resources c _ hinv rfl rfl
        (fun r hr => by rw [hmain] at hr; exact hr) hholds
    · simp only [hmain] at h
      rcases hrow : rows[k]? with _ | row
      · simp [hrow] at h
      · simp only [hrow, Option.some.injEq] at h
        subst h
        exact main_step_inv t accessToken apiEndpoint resources c _ hinv rfl rfl
          (fun r hr => by rw [hmain] at hr; exact hr) hholds
  · simp [hmain] at h

theorem stepRuntime_inv (t : Transport) (accessToken apiEndpoint : String)
    (resources : List CFResource) (c c1 : Conc)
    (hinv : ConcInv t accessToken apiEndpoint resources c)
    (h : stepRuntime resources c = some c1) :
    ConcInv t accessToken apiEndpoint resources c1 := by
  unfold stepRuntime at h
  split at h
  · simp only [Option.some.injEq] at h
    subst h
    exact main_step_inv t accessToken apiEndpoint resources c _ hinv rfl rfl
      (fun _ hr => hr) hinv.holds
  · cases h

theorem step_inv (t : Transport) (accessToken apiEndpoint : String)
    (resources : List CFResource) (c c1 : Conc) (a : Actor)
    (hinv : ConcInv t accessToken apiEndpoint resources c)
    (h : step t accessToken apiEndpoint resources c a = some c1) :
    ConcInv t accessToken apiEndpoint resources c1 := by
  unfold step at h
  split at h
  · cases h
  · cases a with
    | main => exact stepMain_inv t accessToken apiEndpoint resources c c1 hinv h
    | task i =>
      exact stepTask_inv t accessToken apiEndpoint resources resources.length c c1 i hinv h
    | runtime => exact stepRuntime_inv t accessToken apiEndpoint resources c c1 hinv h

theorem runSchedule_inv (t : Transport) (accessToken apiEndpoint : String)
    (resources : List CFResource) (schedule : List Actor) (c c1 : Conc)
    (hinv : ConcInv t accessToken apiEndpoint resources c)
    (h : runSchedule t accessToken apiEndpoint resources c schedule = some c1) :
    ConcInv t accessToken apiEndpoint resources c1 := by
  induction schedule generalizing c with
  | nil =>
    simp only [runSchedule, Option.some.injEq] at h
    subst h
    exact hinv
  | cons a rest ih =>
    simp only [runSchedule] at h
    rcases hs : step t accessToken apiEndpoint resources c a with _ | c2
    · simp [hs] at h
    · simp only [hs] at h
      exact ih c2 (step_inv t accessToken apiEndpoint resources c c2 a hinv hs) h

theorem Run_inv (t : Transport) (accessToken apiEndpoint : String) (resp : CFResponse)
    (schedule : List Actor) (c : Conc)
    (h : Run t accessToken apiEndpoint resp schedule = some c) :
    ConcInv t accessToken apiEndpoint resp.Resources c :=
  runSchedule_inv t accessToken apiEndpoint resp.Resources schedule _ c
    (ConcInv_init t accessToken apiEndpoint resp.Resources) h

/-! ## What an interleaved run writes to standard output -/

theorem OutInv_init (resources : List CFResource) : OutInv (Conc.init resources) :=
  { bound := fun _ _ _ _ _ h => by simp [Conc.init] at h,
    sub := List.nil_sublist _,
    rest := ⟨[], by simp, by simp [Conc.init, printed]⟩ }

theorem out_keep (c c1 : Conc) (hinv : OutInv c) (hout : c1.stdout = c.stdout)
    (hp : printed c1.main = printed c.main)
    (hb : ∀ rows paddingName paddingService paddingPlan k,
      c1.main = MainPc.printing rows paddingName paddingService paddingPlan k →
      k ≤ rows.length + 2) :
    OutInv c1 := by
  refine ⟨hb, ?_, ?_⟩
  · rw [hp, hout]
    exact hinv.sub
  · rw [hp, hout]
    exact hinv.rest

theorem out_task_print (c c1 : Conc) (kind : LookupKind) (err : String) (hinv : OutInv c)
    (hmain : c1.main = c.main) (hout : c1.stdout = c.stdout ++ [failureText kind err]) :
    OutInv c1 := by
  refine ⟨?_, ?_, ?_⟩
  · rw [hmain]
    exact hinv.bound
  · rw [hmain, hout]
    exact hinv.sub.trans (List.sublist_append_left _ _)
  · obtain ⟨others, hothers, hperm⟩ := hinv.rest
    refine ⟨others ++ [failureText kind err], ?_, ?_⟩
    · intro s hs
      rcases List.mem_append.mp hs with h | h
      · exact hothers s h
      · rw [List.mem_singleton] at h
        exact ⟨kind, err, h⟩
    · rw [hmain, hout, ← List.append_assoc]
      exact hperm.append_right _

theorem out_main_print (c c1 : Conc) (x : String) (hinv : OutInv c)
    (hout : c1.stdout = c.stdout ++ [x]) (hp : printed c1.main = printed c.main ++ [x])
    (hb : ∀ rows paddingName paddingService paddingPlan k,
      c1.main = MainPc.printing rows paddingName paddingService paddingPlan k →
      k ≤ rows.length + 2) :
    OutInv c1 := by
  refine ⟨hb, ?_, ?_⟩
  · rw [hp, hout]
    exact hinv.sub.append (List.Sublist.refl _)
  · obtain ⟨others, hothers, hperm⟩ := hinv.rest
    refine ⟨others, hothers, ?_⟩
    rw [hp, hout]
    have h1 : (c.stdout ++ [x]).Perm ((printed c.main ++ others) ++ [x]) :=
      hperm.append_right _
    refine h1.trans ?_
    rw [List.append_assoc, List.append_assoc]
    exact List.Perm.append_left _ List.perm_append_comm

theorem stepTask_out (t : Transport) (accessToken apiEndpoint : String) (capacity : Nat)
    (c c1 : Conc) (i : Nat) (hinv : OutInv c)
    (h : stepTask t accessToken apiEndpoint capacity c i = some c1) : OutInv c1 := by
  unfold stepTask at h
  rcases hti : c.vars.tasks[i]? with _ | task
  · simp [hti] at h
  rcases hpi : c.pcs[i]? with _ | pc
  · simp [hti, hpi] at h
  simp only [hti, hpi] at h
  cases pc with
  | start =>
    simp only [Option.some.injEq] at h
    subst h
    exact out_keep c _ hinv rfl rfl hinv.bound
  | fetched r =>
    obtain ⟨name, err⟩ := r
    cases err with
    | some e =>
      simp only [Option.some.injEq] at h
      subst h
      exact out_task_print c _ task.kind e hinv rfl rfl
    | none =>
      cases hk : task.kind <;> simp only [hk, Option.some.injEq] at h <;> subst h <;>
        exact out_keep c _ hinv rfl rfl hinv.bound
  | wroteMap =>
    cases hk : task.kind <;> simp only [hk, Option.some.injEq] at h <;> subst h <;>
      exact out_keep c _ hinv rfl rfl hinv.bound
  | measured m =>
    cases hk : task.kind <;> simp only [hk, Option.some.injEq] at h <;> subst h <;>
      exact out_keep c _ hinv rfl rfl hinv.bound
  | sending =>
    by_cases hcap : c.chan < capacity
    · simp only [hcap, if_true, Option.some.injEq] at h
      subst h
      exact out_keep c _ hinv rfl rfl hinv.bound
    · simp [hcap] at h
  | loading =>
    simp only [Option.some.injEq] at h
    subst h
    exact out_keep c _ hinv rfl rfl hinv.bound
  | storing v =>
    simp only [Option.some.injEq] at h
    subst h
    exact out_keep c _ hinv rfl rfl hinv.bound
  | done => simp at h

theorem stepMain_out (resources : List CFResource) (c c1 : Conc) (hinv : OutInv c)
    (h : stepMain resources c = some c1) : OutInv c1 := by
  unfold stepMain at h
  rcases hmain : c.main with todo | _ | _ | l | rows | ⟨rows, wN⟩ | ⟨rows, wN, wS⟩ |
    ⟨rows, wN, wS, wP, k⟩ | _
  · cases todo with
    | nil =>
      simp only [hmain, Option.some.injEq] at h
      subst h
      exact out_keep c _ hinv rfl (by rw [hmain]; rfl) (fun _ _ _ _ _ hk => by cases hk)
    | cons r todo =>
      simp only [hmain] at h
      rcases hv : visit c.vars r with _ | vars1
      · simp only [hv, Option.some.injEq] at h
        subst h
        exact out_keep c _ hinv rfl (by rw [hmain]; rfl) (fun _ _ _ _ _ hk => by cases hk)
      · simp only [hv, Option.some.injEq] at h
        subst h
        exact out_keep c _ hinv rfl (by rw [hmain]; rfl) (fun _ _ _ _ _ hk => by cases hk)
  · simp only [hmain] at h
    split at h
    · simp only [Option.some.injEq] at h
      subst h
      exact out_keep c _ hinv rfl (by rw [hmain]; rfl) (fun _ _ _ _ _ hk => by cases hk)
    · simp only [Option.some.injEq] at h
      subst h
      exact out_keep c _ hinv rfl (by rw [hmain]; rfl) (fun _ _ _ _ _ hk => by cases hk)
  · simp only [hmain] at h
    split at h
    · simp only [Option.some.injEq] at h
      subst h
      exact out_keep c _ hinv rfl (by rw [hmain]; rfl) (fun _ _ _ _ _ hk => by cases hk)
    · cases h
  · simp only [hmain, Option.some.injEq] at h
    subst h
    exact out_keep c _ hinv rfl (by rw [hmain]; rfl) (fun _ _ _ _ _ hk => by cases hk)
  · simp only [hmain, Option.some.injEq] at h
    subst h
    exact out_keep c _ hinv rfl (by rw [hmain]; rfl) (fun _ _ _ _ _ hk => by cases hk)
  · simp only [hmain, Option.some.injEq] at h
    subst h
    exact out_keep c _ hinv rfl (by rw [hmain]; rfl) (fun _ _ _ _ _ hk => by cases hk)
  · simp only [hmain, Option.some.injEq] at h
    subst h
    refine out_keep c _ hinv rfl (by rw [hmain]; rfl) (fun _ _ _ _ _ hk => ?_)
    cases hk
    exact Nat.zero_le _
  · rcases k with _ | _ | k
    · simp only [hmain, Option.some.injEq] at h
      subst h
      refine out_main_print c _ okText hinv rfl (by rw [hmain]; rfl) (fun _ _ _ _ _ hk => ?_)
      cases hk
      omega
    · simp only [hmain, Option.some.injEq] at h
      subst h
      refine out_main_print c _ (headerText wN wS wP) hinv rfl (by rw [hmain]; rfl)
        (fun _ _ _ _ _ hk => ?_)
      cases hk
      omega
    · simp only [hmain] at h
      rcases hrow : rows[k]? with _ | row
      · simp [hrow] at h
      · simp only [hrow, Option.some.injEq] at h
        subst h
        have hlt : k < rows.length := (List.getElem?_eq_some.mp hrow).1
        refine out_main_print c _ (rowText wN wS wP row) hinv rfl ?_ (fun _ _ _ _ _ hk => ?_)
        · rw [hmain]
          show List.take (k + 2 + 1) _ = List.take (k + 2) _ ++ _
          rw [List.take_succ]
          congr 1
          simp [hrow]
        · cases hk
          omega
  · simp [hmain] at h

theorem step_out (t : Transport) (accessToken apiEndpoint : String)
    (resources : List CFResource) (c c1 : Conc) (a : Actor) (hinv : OutInv c)
    (h : step t accessToken apiEndpoint resources c a = some c1) : OutInv c1 := by
  unfold step at h
  split at h
  · cases h
  · cases a with
    | main => exact stepMain_out resources c c1 hinv h
    | task i => exact stepTask_out t accessToken apiEndpoint resources.length c c1 i hinv h
    | runtime =>
      have h2 : stepRuntime resources c = some c1 := h
      unfold stepRuntime at h2
      split at h2
      · simp only [Option.some.injEq] at h2
        subst h2
        exact out_keep c _ hinv rfl rfl hinv.bound
      · cases h2

theorem runSchedule_out (t : Transport) (accessToken apiEndpoint : String)
    (resources : List CFResource) (schedule : List Actor) (c c1 : Conc) (hinv : OutInv c)
    (h : runSchedule t accessToken apiEndpoint resources c schedule = some c1) :
    OutInv c1 := by
  induction schedule generalizing c with
  | nil =>
    simp only [runSchedule, Option.some.injEq] at h
    subst h
    exact hinv
  | cons a rest ih =>
    simp only [runSchedule] at h
    rcases hs : step t accessToken apiEndpoint resources c a with _ | c2
    · simp [hs] at h
    · simp only [hs] at h
      exact ih c2 (step_out t accessToken apiEndpoint resources c c2 a hinv hs) h

theorem Run_out (t : Transport) (accessToken apiEndpoint : String) (resp : CFResponse)
    (schedule : List Actor) (c : Conc)
    (h : Run t accessToken apiEndpoint resp schedule = some c) : OutInv c :=
  runSchedule_out t accessToken apiEndpoint resp.Resources schedule _ c
    (OutInv_init resp.Resources) h

/-! ## C1: the records built -/

theorem carriedServices_mem (resources : List CFResource) (r : CFResource)
    (entity : CFResourceEntity) (g : String) (hr : r ∈ resources)
    (he : r.Entity = some entity) (hg : entity.ServiceGUID = some g) :
    g ∈ carriedServices resources := by
  unfold carriedServices
  rw [List.mem_filterMap]
  exact ⟨r, hr, by simp [he, hg]⟩

/-- C1: in a listing in which every entry that has an entity also has a
name, whatever the lookups return and however the goroutines interleave
with the coordinating routine, the coordinating routine does not panic, and
the records it has built when it leaves the wait loop correspond one by one
and in listing order to the entries that carry an entity with a name, a
service GUID and a plan GUID, each record bearing the name of its entry; an
entry lacking one of them gives no record, although its service GUID, when
present, is among the lookups dispatched.  The same holds of the
record-building loop of lines 167-177 for any content of the two maps. -/
theorem Run_builds_complete_entries (t : Transport) (accessToken apiEndpoint : String)
    (resp : CFResponse)
    (hnames : ∀ r ∈ resp.Resources, ∀ entity, r.Entity = some entity → entity.Name ≠ none)
    (schedule : List Actor) (c : Conc)
    (h : Run t accessToken apiEndpoint resp schedule = some c) :
    c.main ≠ MainPc.panicked ∧
    (∀ l, c.main = MainPc.built l →
      List.Forall₂ (fun e row => row.Name = e.1) (completeEntries resp.Resources) l ∧
      l.length = (resp.Resources.filter (fun r => (completeEntry r).isSome)).length ∧
      ∀ r ∈ resp.Resources, ∀ entity g, r.Entity = some entity →
        entity.ServiceGUID = some g → (⟨LookupKind.service, g⟩ : Task) ∈ c.vars.tasks) ∧
    (∀ st : Vars, build st [] resp.Resources = (completeEntries resp.Resources).map
      (fun e => ServiceInstance.mk e.1 (st.serviceNamesMap.index e.2.1)
        (st.servicePlanNamesMap.index e.2.2))) := by
  have hinv := Run_inv t accessToken apiEndpoint resp schedule c h
  obtain ⟨visited, rest, hres, hc, hm⟩ := hinv.walked
  refine ⟨?_, ?_, ?_⟩
  · intro hp
    rw [hp] at hm
    obtain ⟨r, todo, entity, hrest, he, hn⟩ := hm
    have hr : r ∈ resp.Resources := by
      rw [hres, hrest]
      simp
    exact hnames r hr entity he hn
  · intro l hl
    have hholds := hinv.holds
    rw [hl] at hholds hm
    have hnames2 : NamesOf resp.Resources l := hholds
    have hrest : rest = [] := hm
    subst hrest
    rw [List.append_nil] at hres
    refine ⟨hnames2, ?_, ?_⟩
    · rw [← List.Forall₂.length_eq hnames2]
      exact length_filterMap_isSome completeEntry resp.Resources
    · intro r hr entity g he hg
      rw [← hres] at hc
      obtain ⟨_, hmem, _⟩ := collect_spec resp.Resources Vars.init _ hc WalkInv_init
      have h1 : (⟨LookupKind.service, g⟩ : Task) ∈ c.vars.erase.tasks :=
        (hmem _).mpr (Or.inr (Or.inl
          ⟨rfl, carriedServices_mem resp.Resources r entity g hr he hg⟩))
      exact h1
  · intro st
    rw [build_eq, List.nil_append]

/-- C1 on a listing whose second entry lacks its plan GUID and whose third
entry has no entity, the goroutines running one after another: the one
record built is that of db1, and the lookup of svcB, the service GUID of
the entry without a plan, has been dispatched. -/
theorem Run_builds_complete_entries_witness :
    ∃ c, Run exampleTransport "bearer" "api" mixedListing mixedSchedule = some c ∧
      c.main = MainPc.built [⟨"db1", "mysql", "small"⟩] ∧
      completeEntries mixedListing.Resources = [("db1", "svcA", "planX")] ∧
      c.main ≠ MainPc.panicked ∧
      (⟨LookupKind.service, "svcB"⟩ : Task) ∈ c.vars.tasks :=
  have h := Run_builds_complete_entries exampleTransport "bearer" "api" mixedListing
    (namesPresent_spec _ (by decide)) mixedSchedule _ rfl
  ⟨_, rfl, rfl, rfl, h.1,
    (h.2.1 _ rfl).2.2 (entry (some "orphan") (some "svcB") none)
      (by simp [mixedListing, listingOf]) _ "svcB" rfl rfl⟩

/-! ## C7: the entry without a name -/

theorem nameless_step (t : Transport) (accessToken apiEndpoint : String) (c c1 : Conc)
    (a : Actor)
    (hc : (c.main = MainPc.walking namelessListing.Resources ∨ c.main = MainPc.panicked) ∧
      c.vars.tasks = [] ∧ c.stdout = [])
    (h : step t accessToken apiEndpoint namelessListing.Resources c a = some c1) :
    (c1.main = MainPc.walking namelessListing.Resources ∨ c1.main = MainPc.panicked) ∧
      c1.vars.tasks = [] ∧ c1.stdout = [] := by
  obtain ⟨hmain, htasks, hout⟩ := hc
  unfold step at h
  split at h
  · cases h
  · rcases hmain with hw | hp
    · cases a with
      | main =>
        have h2 : stepMain namelessListing.Resources c = some c1 := h
        unfold stepMain at h2
        have hv : visit c.vars (entry none (some "svcA") (some "planX")) = none := rfl
        simp only [hw, namelessListing, listingOf, hv, Option.some.injEq] at h2
        subst h2
        exact ⟨Or.inr rfl, htasks, hout⟩
      | task i =>
        have h2 : stepTask t accessToken apiEndpoint namelessListing.Resources.length c i
          = some c1 := h
        unfold stepTask at h2
        simp [htasks] at h2
      | runtime =>
        have h2 : stepRuntime namelessListing.Resources c = some c1 := h
        unfold stepRuntime at h2
        split at h2
        · simp only [Option.some.injEq] at h2
          subst h2
          exact ⟨Or.inl hw, htasks, hout⟩
        · cases h2
    · rename_i hstop
      simp [Conc.stopped, hp] at hstop

theorem nameless_runs (t : Transport) (accessToken apiEndpoint : String)
    (schedule : List Actor) (c c1 : Conc)
    (hc : (c.main = MainPc.walking namelessListing.Resources ∨ c.main = MainPc.panicked) ∧
      c.vars.tasks = [] ∧ c.stdout = [])
    (h : runSchedule t accessToken apiEndpoint namelessListing.Resources c schedule = some c1) :
    (c1.main = MainPc.walking namelessListing.Resources ∨ c1.main = MainPc.panicked) ∧
      c1.vars.tasks = [] ∧ c1.stdout = [] := by
  induction schedule generalizing c with
  | nil =>
    simp only [runSchedule, Option.some.injEq] at h
    subst h
    exact hc
  | cons a rest ih =>
    simp only [runSchedule] at h
    rcases hs : step t accessToken apiEndpoint namelessListing.Resources c a with _ | c2
    · simp [hs] at h
    · simp only [hs] at h
      exact ih c2 (nameless_step t accessToken apiEndpoint c c2 a hc hs) h

/-- C7 at a listing whose only entry has a service GUID and a plan GUID but
no name: Run does not drop the nameless entry.  Whatever the lookups would
return and whatever the schedule, the coordinating routine is still before
the entry or has panicked on it, no lookup has been dispatched and nothing
has been printed; its first step is the nil-pointer panic of line 109.
Line 170 alone would have dropped the entry. -/
theorem Run_nameless_entry (t : Transport) (accessToken apiEndpoint : String) :
    (∀ (schedule : List Actor) (c : Conc),
      Run t accessToken apiEndpoint namelessListing schedule = some c →
      (c.main = MainPc.walking namelessListing.Resources ∨ c.main = MainPc.panicked) ∧
      c.vars.tasks = [] ∧ c.stdout = []) ∧
    (Run t accessToken apiEndpoint namelessListing [Actor.main]).map (fun c => c.main)
      = some MainPc.panicked ∧
    completeEntries namelessListing.Resources = [] ∧
    build Vars.init [] namelessListing.Resources = [] :=
  ⟨fun schedule c h => nameless_runs t accessToken apiEndpoint schedule _ c
    ⟨Or.inl rfl, rfl, rfl⟩ h, rfl, rfl, rfl⟩

/-! ## C4: the rows printed -/

theorem stepMain_rows (resources : List CFResource) (c c1 : Conc) (rows : ServiceInstances)
    (hrows : c.main.rows = some rows) (h : stepMain resources c = some c1) :
    c1.main.rows = some rows := by
  unfold stepMain at h
  rcases hmain : c.main with todo | _ | _ | l | rows2 | ⟨rows2, wN⟩ | ⟨rows2, wN, wS⟩ |
    ⟨rows2, wN, wS, wP, k⟩ | _
  · rw [hmain] at hrows
    cases hrows
  · rw [hmain] at hrows
    cases hrows
  · rw [hmain] at hrows
    cases hrows
  · rw [hmain] at hrows
    cases hrows
  · rw [hmain] at hrows
    simp only [hmain, Option.some.injEq] at h
    subst h
    exact hrows
  · rw [hmain] at hrows
    simp only [hmain, Option.some.injEq] at h
    subst h
    exact hrows
  · rw [hmain] at hrows
    simp only [hmain, Option.some.injEq] at h
    subst h
    exact hrows
  · rw [hmain] at hrows
    rcases k with _ | _ | k
    · simp only [hmain, Option.some.injEq] at h
      subst h
      exact hrows
    · simp only [hmain, Option.some.injEq] at h
      subst h
      exact hrows
    · simp only [hmain] at h
      rcases hrow : rows2[k]? with _ | row
      · simp [hrow] at h
      · simp only [hrow, Option.some.injEq] at h
        subst h
        exact hrows
  · rw [hmain] at hrows
    cases hrows

/-- C4: the sort rearranges any slice of records into ascending order by
service name, then plan name, then instance name, no row being `Less` than
the row before it.  In Run the step after the records are built sorts
them, the later steps of the coordinating routine keep the rows, and in
every state in which it is printing, under every schedule, the rows it
holds are such a sorted arrangement and its lines (the OK line, the header
line and then one line for each row, in the order of the rows) stand in
standard output in this order.  Sorting the records of the spec's example,
(db1, mysql, small), (cache1, redis, free), (db2, mysql, small), gives
(db1, mysql, small), (db2, mysql, small), (cache1, redis, free). -/
theorem Run_rows_sorted_permutation :
    (∀ a : ServiceInstances, (sortSort a).Perm a ∧ IsSorted (sortSort a) ∧
      (sortSort a).Pairwise (fun x y => sortKey x ≤ sortKey y)) ∧
    (∀ (resources : List CFResource) (c : Conc) (l : ServiceInstances),
      c.main = MainPc.built l →
      (stepMain resources c).map (fun c1 => c1.main) = some (MainPc.sorted (sortSort l))) ∧
    (∀ (resources : List CFResource) (c c1 : Conc) (rows : ServiceInstances),
      c.main.rows = some rows → stepMain resources c = some c1 → c1.main.rows = some rows) ∧
    (∀ (t : Transport) (accessToken apiEndpoint : String) (resp : CFResponse)
        (schedule : List Actor) (c : Conc) (rows : ServiceInstances)
        (paddingName paddingService paddingPlan k : Nat),
      Run t accessToken apiEndpoint resp schedule = some c →
      c.main = MainPc.printing rows paddingName paddingService paddingPlan k →
      (∃ l, List.Forall₂ (fun e row => row.Name = e.1) (completeEntries resp.Resources) l ∧
        rows = sortSort l ∧ rows.Perm l) ∧
      IsSorted rows ∧ rows.Pairwise (fun x y => sortKey x ≤ sortKey y) ∧
      k ≤ rows.length + 2 ∧
      (([okText, headerText paddingName paddingService paddingPlan] ++
        rows.map (rowText paddingName paddingService paddingPlan)).take k).Sublist c.stdout) ∧
    sortSort [⟨"db1", "mysql", "small"⟩, ⟨"cache1", "redis", "free"⟩, ⟨"db2", "mysql", "small"⟩]
      = [⟨"db1", "mysql", "small"⟩, ⟨"db2", "mysql", "small"⟩, ⟨"cache1", "redis", "free"⟩] := by
  refine ⟨fun a => ⟨sortSort_perm a, sortSort_isSorted a, sortSort_pairwise a⟩, ?_,
    stepMain_rows, ?_, by decide⟩
  · intro resources c l hl
    unfold stepMain
    simp [hl]
  · intro t accessToken apiEndpoint resp schedule c rows wN wS wP k h hmain
    have hinv := Run_inv t accessToken apiEndpoint resp schedule c h
    have hout := Run_out t accessToken apiEndpoint resp schedule c h
    have hholds := hinv.holds
    rw [hmain] at hholds
    obtain ⟨⟨l, hl, hrows⟩, _⟩ := hholds
    have hsub := hout.sub
    rw [hmain] at hsub
    refine ⟨⟨l, hl, hrows, ?_⟩, ?_, ?_, hout.bound rows wN wS wP k hmain, hsub⟩
    · rw [hrows]; exact sortSort_perm l
    · rw [hrows]; exact sortSort_isSorted l
    · rw [hrows]; exact sortSort_pairwise l

/-- C4 on the spec's example with the example lookups, under a schedule in
which every goroutine has returned when the wait loop is left: the rows
held and the lines printed. -/
theorem Run_rows_sorted_permutation_witness :
    ∃ c, Run exampleTransport "bearer" "api" exampleListing printSchedule = some c ∧
      c.main = MainPc.printing [⟨"db1", "mysql", "small"⟩, ⟨"db2", "mysql", "small"⟩,
        ⟨"cache1", "redis", "free"⟩] 9 8 8 5 ∧
      c.stdout = ["\x1b[1;32mOK\x1b[0m\n\n",
        "\x1b[1;38mname     \x1b[0m\x1b[1;38mservice \x1b[0m\x1b[1;38mplan    \x1b[0m\n",
        "db1      mysql   small   \n", "db2      mysql   small   \n",
        "cache1   redis   free    \n"] ∧
      IsSorted [⟨"db1", "mysql", "small"⟩, ⟨"db2", "mysql", "small"⟩,
        ⟨"cache1", "redis", "free"⟩] :=
  ⟨_, rfl, rfl, by decide,
    (Run_rows_sorted_permutation.2.2.2.1 exampleTransport "bearer" "api" exampleListing
      printSchedule _ _ 9 8 8 5 rfl rfl).2.1⟩

/-! ## The wait loop: what the schedules allow -/

/-- In every interleaving, if all dispatched goroutines have returned at
the moment the coordinating routine leaves the wait loop, each record it
builds holds the name its entry's service lookup and plan lookup returned,
and the empty string for a lookup that failed. -/
theorem join_builds_resolved_records (t : Transport) (accessToken apiEndpoint : String)
    (resp : CFResponse) (schedule : List Actor) (c c1 : Conc) (rows : ServiceInstances)
    (hrun : Run t accessToken apiEndpoint resp schedule = some c)
    (hdone : ∀ pc ∈ c.pcs, pc = TaskPc.done)
    (hstep : stepMain resp.Resources c = some c1)
    (hbuilt : c1.main = MainPc.built rows) :
    rows = (completeEntries resp.Resources).map (fun e =>
      ServiceInstance.mk e.1
        (resolved (lookup t accessToken apiEndpoint ⟨LookupKind.service, e.2.1⟩))
        (resolved (lookup t accessToken apiEndpoint ⟨LookupKind.plan, e.2.2⟩))) := by
  have hinv := Run_inv t accessToken apiEndpoint resp schedule c hrun
  obtain ⟨visited, rest, hres, hc, hm⟩ := hinv.walked
  have hwait : c.main = MainPc.waiting ∧ rows = build c.vars [] resp.Resources := by
    unfold stepMain at hstep
    rcases hmain : c.main with todo | _ | _ | l | rows2 | ⟨rows2, wN⟩ | ⟨rows2, wN, wS⟩ |
      ⟨rows2, wN, wS, wP, k⟩ | _
    · cases todo with
      | nil =>
        simp only [hmain, Option.some.injEq] at hstep
        subst hstep
        cases hbuilt
      | cons r todo =>
        simp only [hmain] at hstep
        rcases hv : visit c.vars r with _ | vars1
        · simp only [hv, Option.some.injEq] at hstep
          subst hstep
          cases hbuilt
        · simp only [hv, Option.some.injEq] at hstep
          subst hstep
          cases hbuilt
    · simp only [hmain] at hstep
      split at hstep
      · simp only [Option.some.injEq] at hstep
        subst hstep
        cases hbuilt
      · simp only [Option.some.injEq] at hstep
        subst hstep
        simp only [MainPc.built.injEq] at hbuilt
        exact ⟨rfl, hbuilt.symm⟩
    · simp only [hmain] at hstep
      split at hstep
      · simp only [Option.some.injEq] at hstep
        subst hstep
        cases hbuilt
      · cases hstep
    · simp only [hmain, Option.some.injEq] at hstep
      subst hstep
      cases hbuilt
    · simp only [hmain, Option.some.injEq] at hstep
      subst hstep
      cases hbuilt
    · simp only [hmain, Option.some.injEq] at hstep
      subst hstep
      cases hbuilt
    · simp only [hmain, Option.some.injEq] at hstep
      subst hstep
      cases hbuilt
    · rcases k with _ | _ | k
      · simp only [hmain, Option.some.injEq] at hstep
        subst hstep
        cases hbuilt
      · simp only [hmain, Option.some.injEq] at hstep
        subst hstep
        cases hbuilt
      · simp only [hmain] at hstep
        rcases hrow : rows2[k]? with _ | row
        · simp [hrow] at hstep
        · simp only [hrow, Option.some.injEq] at hstep
          subst hstep
          cases hbuilt
    · simp [hmain] at hstep
  obtain ⟨hmain, hrows⟩ := hwait
  rw [hmain] at hm
  have hrest : rest = [] := hm
  subst hrest
  rw [List.append_nil] at hres
  rw [← hres] at hc
  obtain ⟨_, hmem, _⟩ := collect_spec resp.Resources Vars.init _ hc WalkInv_init
  have hcellDone : ∀ task ∈ c.vars.tasks,
      task.cell c.vars = some (resolved (lookup t accessToken apiEndpoint task)) := by
    intro task htask
    obtain ⟨i, hi⟩ := List.mem_iff_getElem?.mp htask
    have hlt : i < c.pcs.length := by
      rw [hinv.len]
      exact (List.getElem?_eq_some.mp hi).1
    have hpc : c.pcs[i]? = some (c.pcs.get ⟨i, hlt⟩) := List.getElem?_eq_getElem hlt
    have hd := hdone _ (List.get_mem c.pcs i hlt)
    rw [hd] at hpc
    exact (hinv.cells i task _ hi hpc).1
  rw [hrows, build_eq, List.nil_append]
  apply List.map_congr_left
  intro e he
  obtain ⟨hs, hp, _⟩ := completeEntry_carried resp.Resources e he
  have h1 : (⟨LookupKind.service, e.2.1⟩ : Task) ∈ c.vars.tasks :=
    (hmem _).mpr (Or.inr (Or.inl ⟨rfl, hs⟩))
  have h2 : (⟨LookupKind.plan, e.2.2⟩ : Task) ∈ c.vars.tasks :=
    (hmem _).mpr (Or.inr (Or.inr ⟨rfl, hp⟩))
  have hc1 := hcellDone _ h1
  have hc2 := hcellDone _ h2
  simp only [Task.cell] at hc1 hc2
  simp only [NamesMap.index, hc1, hc2]

/-- The theorem above on the spec's example under `joinSchedule`: the
records built are those of the example. -/
theorem join_builds_resolved_records_example :
    [⟨"db1", "mysql", "small"⟩, ⟨"cache1", "redis", "free"⟩, ⟨"db2", "mysql", "small"⟩]
      = (completeEntries exampleListing.Resources).map (fun e =>
        ServiceInstance.mk e.1
          (resolved (lookup exampleTransport "bearer" "api" ⟨LookupKind.service, e.2.1⟩))
          (resolved (lookup exampleTransport "bearer" "api" ⟨LookupKind.plan, e.2.2⟩))) :=
  join_builds_resolved_records exampleTransport "bearer" "api" exampleListing joinSchedule
    _ _ _ rfl (by decide) rfl rfl

/-- Under `blockSchedule` two increments of `readyCount` fall together and
one is lost: every goroutine has returned and every signal has been
received, `readyCount` is -1, and the coordinating routine is at the
receive of line 164 on the empty channel; no actor can move, so Run never
prints. -/
theorem Run_can_block :
    ∃ c, Run exampleTransport "bearer" "api" exampleListing blockSchedule = some c ∧
      c.main = MainPc.receiving ∧ c.chan = 0 ∧ c.vars.readyCount = -1 ∧
      c.pcs = [TaskPc.done, TaskPc.done, TaskPc.done, TaskPc.done] ∧ c.stdout = [] ∧
      ∀ a, step exampleTransport "bearer" "api" exampleListing.Resources c a = none := by
  refine ⟨_, rfl, rfl, rfl, rfl, rfl, rfl, ?_⟩
  intro a
  cases a with
  | main => rfl
  | task i =>
    rcases i with _ | _ | _ | _ | i
    · rfl
    · rfl
    · rfl
    · rfl
    · rfl
  | runtime => rfl

/-- Under `crashSchedule` the write of the svcA goroutine to
`serviceNamesMap` meets the write of the walk for svcB, and the runtime
ends the program: no actor moves any more and nothing has been printed. -/
theorem Run_can_crash :
    ∃ c, Run exampleTransport "bearer" "api" exampleListing crashSchedule = some c ∧
      c.fatal = true ∧ c.stdout = [] ∧
      c.pcs = [TaskPc.fetched ("mysql", none), TaskPc.start] ∧
      ∀ a, step exampleTransport "bearer" "api" exampleListing.Resources c a = none :=
  ⟨_, rfl, rfl, rfl, rfl, fun _ => rfl⟩

/-! ## C2: a record built before its lookup has written -/

/-- C2 on the spec's example listing under `staleSchedule`: the lookup of
svcB succeeds with redis, and its goroutine is holding that result, but
the wait loop has been left and the record of cache1 has been built with
the empty string for its service (and for its plan, whose lookup succeeds
with free). -/
theorem Run_record_without_resolved_name :
    (Run exampleTransport "bearer" "api" exampleListing staleSchedule).map
      (fun c => (c.main, c.pcs, c.vars.readyCount))
    = some (MainPc.built [⟨"db1", "mysql", "small"⟩, ⟨"cache1", "", ""⟩,
                          ⟨"db2", "mysql", "small"⟩],
            [TaskPc.done, TaskPc.done, TaskPc.fetched ("redis", none), TaskPc.start], 0) ∧
    lookup exampleTransport "bearer" "api" ⟨LookupKind.service, "svcB"⟩ = ("redis", none) ∧
    lookup exampleTransport "bearer" "api" ⟨LookupKind.plan, "planY"⟩ = ("free", none) := by
  refine ⟨by rfl, rfl, rfl⟩

/-! ## C9: the wait loop under interleaving -/

/-- C9 on the spec's example listing under `raceSchedule`: the decrements
made for svcB and planY fall between the load and the store of the planX
goroutine's `readyCount++` and are overwritten, `readyCount` reads 0, the
wait loop is left and the records are built while the svcB and planY
goroutines have not started; cache1 gets empty names although both of its
lookups would succeed. -/
theorem runSchedule_race_leaves_wait_loop :
    (runSchedule exampleTransport "bearer" "api" exampleListing.Resources
        (Conc.init exampleListing.Resources) raceSchedule).map
      (fun c => (c.main, c.pcs, c.vars.tasks, c.vars.readyCount, c.chan))
    = some (MainPc.built [⟨"db1", "mysql", "small"⟩, ⟨"cache1", "", ""⟩,
                          ⟨"db2", "mysql", "small"⟩],
            [TaskPc.done, TaskPc.done, TaskPc.start, TaskPc.start],
            [⟨LookupKind.service, "svcA"⟩, ⟨LookupKind.plan, "planX"⟩,
             ⟨LookupKind.service, "svcB"⟩, ⟨LookupKind.plan, "planY"⟩],
            0, 2) ∧
    lookup exampleTransport "bearer" "api" ⟨LookupKind.service, "svcB"⟩ = ("redis", none) ∧
    lookup exampleTransport "bearer" "api" ⟨LookupKind.plan, "planY"⟩ = ("free", none) := by
  refine ⟨by rfl, rfl, rfl⟩

/-! ## C8: column widths -/

theorem forall₂_mem_right {α β : Type} (R : α → β → Prop) (l : List α) (m : List β)
    (h : List.Forall₂ R l m) (b : β) (hb : b ∈ m) : ∃ a ∈ l, R a b := by
  induction h with
  | nil => cases hb
  | cons h1 _ ih =>
    rcases List.mem_cons.mp hb with heq | hmem
    · subst heq
      exact ⟨_, List.mem_cons_self _ _, h1⟩
    · obtain ⟨a, ha, hr⟩ := ih hmem
      exact ⟨a, List.mem_cons_of_mem _ ha, hr⟩

theorem longestName_spec (resources : List CFResource) :
    (∀ n ∈ carriedNames resources, len n ≤ longestName resources) ∧
    (longestName resources = 0 ∨
      ∃ n ∈ carriedNames resources, len n = longestName resources) :=
  (foldl_max_len (carriedNames resources) 0).2

/-- C8 (amended): in every state in which the coordinating routine is
printing, whatever the lookups return and whatever the schedule, each
column has one width.  That of the name column is 3 more than the length
of the longest name among the entries of the listing that have an entity,
whether or not the entry gives a row; that of the service column and that
of the plan column are 3 more than the length of a name that a lookup of
that kind returned for a GUID of the listing, or 3; the header labels are
not counted.  Every field, in the header line and in every row line, is
its value followed by blanks; the name field of every row has exactly the
width of its column, and any other field has exactly the width of its
column when its value is not longer than that width. -/
theorem Run_column_widths (t : Transport) (accessToken apiEndpoint : String)
    (resp : CFResponse) (schedule : List Actor) (c : Conc) (rows : ServiceInstances)
    (paddingName paddingService paddingPlan k : Nat)
    (h : Run t accessToken apiEndpoint resp schedule = some c)
    (hmain : c.main = MainPc.printing rows paddingName paddingService paddingPlan k) :
    (paddingName = longestName resp.Resources + 3 ∧
      (∀ n ∈ carriedNames resp.Resources, len n ≤ longestName resp.Resources) ∧
      (longestName resp.Resources = 0 ∨
        ∃ n ∈ carriedNames resp.Resources, len n = longestName resp.Resources)) ∧
    (∃ m, paddingService = m + 3 ∧
      Recorded t accessToken apiEndpoint resp.Resources LookupKind.service m) ∧
    (∃ m, paddingPlan = m + 3 ∧
      Recorded t accessToken apiEndpoint resp.Resources LookupKind.plan m) ∧
    (∀ row ∈ rows,
      rowFields paddingName paddingService paddingPlan row =
        [row.Name ++ spaces (paddingName - row.Name.length),
         row.Service ++ spaces (paddingService - row.Service.length),
         row.Plan ++ spaces (paddingPlan - row.Plan.length)] ∧
      (sprintfPadded paddingName row.Name).length = paddingName ∧
      (row.Service.length ≤ paddingService →
        (sprintfPadded paddingService row.Service).length = paddingService) ∧
      (row.Plan.length ≤ paddingPlan →
        (sprintfPadded paddingPlan row.Plan).length = paddingPlan)) ∧
    headerFields paddingName paddingService paddingPlan =
      ["name" ++ spaces (paddingName - 4), "service" ++ spaces (paddingService - 7),
       "plan" ++ spaces (paddingPlan - 4)] ∧
    ("name".length ≤ paddingName → (sprintfPadded paddingName "name").length = paddingName) ∧
    ("service".length ≤ paddingService →
      (sprintfPadded paddingService "service").length = paddingService) ∧
    ("plan".length ≤ paddingPlan → (sprintfPadded paddingPlan "plan").length = paddingPlan) := by
  have hinv := Run_inv t accessToken apiEndpoint resp schedule c h
  have hholds := hinv.holds
  rw [hmain] at hholds
  obtain ⟨⟨l, hl, hrows⟩, hN, hS, hP⟩ := hholds
  obtain ⟨hle, hatt⟩ := longestName_spec resp.Resources
  refine ⟨⟨hN, hle, hatt⟩, hS, hP, ?_, rfl, ?_, ?_, ?_⟩
  · intro row hrow
    have hmem : row ∈ l := by
      rw [hrows] at hrow
      exact (sortSort_perm l).mem_iff.mp hrow
    obtain ⟨e, he, hname⟩ := forall₂_mem_right _ _ _ hl row hmem
    obtain ⟨_, _, hn⟩ := completeEntry_carried resp.Resources e he
    have h1 : row.Name.length ≤ paddingName := by
      have h2 : row.Name = e.1 := hname
      rw [h2, hN]
      exact le_trans (le_trans (length_le_len e.1) (hle e.1 hn)) (Nat.le_add_right _ _)
    refine ⟨rfl, ?_, ?_, ?_⟩
    · rw [sprintfPadded_length]
      exact Nat.max_eq_left h1
    · intro h2
      rw [sprintfPadded_length]
      exact Nat.max_eq_left h2
    · intro h2
      rw [sprintfPadded_length]
      exact Nat.max_eq_left h2
  · intro h2
    rw [sprintfPadded_length]
    exact Nat.max_eq_left h2
  · intro h2
    rw [sprintfPadded_length]
    exact Nat.max_eq_left h2
  · intro h2
    rw [sprintfPadded_length]
    exact Nat.max_eq_left h2

/-- C8 (amended) on the spec's example under a schedule in which every
goroutine has returned when the wait loop is left: widths 9, 8 and 8, and
the name field of the row of cache1 is 9 wide. -/
theorem Run_column_widths_witness :
    ∃ c, Run exampleTransport "bearer" "api" exampleListing printSchedule = some c ∧
      c.main = MainPc.printing [⟨"db1", "mysql", "small"⟩, ⟨"db2", "mysql", "small"⟩,
        ⟨"cache1", "redis", "free"⟩] 9 8 8 5 ∧
      9 = longestName exampleListing.Resources + 3 ∧
      (sprintfPadded 9 "cache1").length = 9 :=
  have h := Run_column_widths exampleTransport "bearer" "api" exampleListing printSchedule
    _ [⟨"db1", "mysql", "small"⟩, ⟨"db2", "mysql", "small"⟩, ⟨"cache1", "redis", "free"⟩]
    9 8 8 5 rfl rfl
  ⟨_, rfl, rfl, h.1.1,
    (h.2.2.2.1 ⟨"cache1", "redis", "free"⟩ (by simp)).2.1⟩

/-- C8 as stated fails on a listing of db (service s, plan p), an entry
a-long-orphan without a plan GUID, and c (service s, plan q), where s is
s3, p is x and q is enterprise.  With the goroutines running one after
another the name column is 16 wide, not 7 as the longest of the values
"name", "c" and "db" plus 3 would make it, the service column is 5 wide,
not 10 as "service" plus 3 would, and the header's service field has 7
characters over row fields of 5.  When the goroutines of p and q both read
the maximum 0 before either stores, the plan column is 4 wide and the row
of c has a plan field of 10 characters. -/
theorem Run_column_widths_counterexample :
    (Run shortTransport "bearer" "api" orphanListing orphanSchedule).map
        (fun c => (c.main, c.pcs, c.stdout))
      = some (MainPc.printing [⟨"c", "s3", "enterprise"⟩, ⟨"db", "s3", "x"⟩] 16 5 13 4,
          [TaskPc.done, TaskPc.done, TaskPc.done],
          [okText, headerText 16 5 13, rowText 16 5 13 ⟨"c", "s3", "enterprise"⟩,
           rowText 16 5 13 ⟨"db", "s3", "x"⟩]) ∧
    widthWithLabel "name" ["c", "db"] = 7 ∧ 16 ≠ widthWithLabel "name" ["c", "db"] ∧
    widthWithLabel "service" ["s3", "s3"] = 10 ∧ 5 ≠ widthWithLabel "service" ["s3", "s3"] ∧
    (headerFields 16 5 13).map String.length = [16, 7, 13] ∧
    (rowFields 16 5 13 ⟨"c", "s3", "enterprise"⟩).map String.length = [16, 5, 13] ∧
    (Run shortTransport "bearer" "api" orphanListing lostMaxSchedule).map
        (fun c => (c.main, c.pcs, c.stdout))
      = some (MainPc.printing [⟨"c", "s3", "enterprise"⟩, ⟨"db", "s3", "x"⟩] 16 5 4 4,
          [TaskPc.done, TaskPc.done, TaskPc.done],
          [okText, headerText 16 5 4, rowText 16 5 4 ⟨"c", "s3", "enterprise"⟩,
           rowText 16 5 4 ⟨"db", "s3", "x"⟩]) ∧
    widthWithLabel "plan" ["enterprise", "x"] = 13 ∧
    4 ≠ widthWithLabel "plan" ["enterprise", "x"] ∧
    (rowFields 16 5 4 ⟨"c", "s3", "enterprise"⟩).map String.length = [16, 5, 10] ∧
    (rowFields 16 5 4 ⟨"db", "s3", "x"⟩).map String.length = [16, 5, 4] := by
  refine ⟨by rfl, by decide, by decide, by decide, by decide, by decide, by decide, by rfl,
    by decide, by decide, by decide, by decide⟩

end SpaceServices
